import Mathlib

/-!
# Verification of the FW Tools filter / batch subsystem

Shallow embedding of the Filter Engine (`src/js/filterEngine.js`), the
Data Manager (undo/redo, batch-number tracking, column management) and the
Batch Manager (batch marking and deletion) of the FW Tools repository,
together with proofs settling the frozen claims about them.

JavaScript cell values are modelled by an explicit inductive type
(`CellValue`) covering the value shapes the application stores in rows:
strings, integer-valued numbers, `null` and `undefined`.  Rows are
association lists from column names to cell values; property read on a
missing key yields `undefined`, property write on a missing key appends,
exactly as JS object access behaves.
-/

set_option autoImplicit false

namespace FwTools

/-- A JavaScript cell value as stored in a data row: a string, an
integer-valued number, `null`, or `undefined` (absent property). -/
inductive CellValue where
  | str : String → CellValue
  | num : Int → CellValue
  | null : CellValue
  | undefined : CellValue
  deriving DecidableEq, Repr, Inhabited

namespace CellValue

/-- JS `String(v)` coercion: `String(null) = "null"`, `String(undefined) =
"undefined"`, numbers print in decimal. -/
def jsString : CellValue → String
  | .str s => s
  | .num n => toString n
  | .null => "null"
  | .undefined => "undefined"

/-- JS truthiness of a cell value: `""`, `0`, `null`, `undefined` are falsy,
every other string or number is truthy. -/
def jsTruthy : CellValue → Bool
  | .str s => s ≠ ""
  | .num n => n ≠ 0
  | .null => false
  | .undefined => false

end CellValue

/-! ## JS string builtins

Models of the JavaScript string methods the code uses (`toLowerCase`,
`toUpperCase`, `trim`, `includes`, `startsWith`, `endsWith`,
`split(',')`), implemented character-wise so that every definition
evaluates inside the kernel.  On the ASCII data this application handles
they agree with the JS builtins. -/

/-- JS `toLowerCase` (character-wise). -/
def jsToLower (s : String) : String := (s.toList.map Char.toLower).asString

/-- JS `toUpperCase` (character-wise). -/
def jsToUpper (s : String) : String := (s.toList.map Char.toUpper).asString

/-- JS whitespace for `trim` (the forms occurring in this data). -/
def isJsSpace (c : Char) : Bool :=
  c = ' ' ∨ c = '\t' ∨ c = '\n' ∨ c = '\r'

/-- JS `trim` on a character list: drop whitespace from both ends. -/
def jsTrimList (cs : List Char) : List Char :=
  ((cs.dropWhile isJsSpace).reverse.dropWhile isJsSpace).reverse

/-- JS `trim`. -/
def jsTrim (s : String) : String := (jsTrimList s.toList).asString

/-- Whether `pre` is a prefix of `s` (computable, character lists). -/
def listHasPrefix : List Char → List Char → Bool
  | _, [] => true
  | [], _ :: _ => false
  | c :: cs, p :: ps => c = p && listHasPrefix cs ps

/-- Whether `sub` occurs inside `s` (JS `includes` on character lists). -/
def listIncludes : List Char → List Char → Bool
  | s, sub =>
    listHasPrefix s sub ||
      match s with
      | [] => false
      | _ :: cs => listIncludes cs sub

/-- JS `s.includes(sub)`. -/
def jsIncludes (s sub : String) : Bool := listIncludes s.toList sub.toList

/-- JS `s.startsWith(pre)`. -/
def jsStartsWith (s pre : String) : Bool := listHasPrefix s.toList pre.toList

/-- JS `s.endsWith(suf)`. -/
def jsEndsWith (s suf : String) : Bool :=
  listHasPrefix s.toList.reverse suf.toList.reverse

/-- JS `s.split(',')` helper over character lists. -/
def splitCommaAux : List Char → List Char → List String
  | [], acc => [acc.reverse.asString]
  | c :: cs, acc =>
    if c = ',' then acc.reverse.asString :: splitCommaAux cs []
    else splitCommaAux cs (c :: acc)

/-- JS `s.split(',')`. -/
def jsSplitCommas (s : String) : List String := splitCommaAux s.toList []

/-- A data row: a JS object, modelled as an association list from column
name to cell value (first binding wins, as property keys are unique in the
states the application builds). -/
abbrev Row := List (String × CellValue)

namespace Row

/-- JS property read `row[col]`: yields the stored value, or `undefined`
when the property is absent. -/
def get (r : Row) (k : String) : CellValue :=
  match r.find? (fun p => p.1 == k) with
  | some p => p.2
  | none => .undefined

/-- JS `row.hasOwnProperty(col)`. -/
def hasKey (r : Row) (k : String) : Bool :=
  (r.find? (fun p => p.1 == k)).isSome

/-- JS property write `row[col] = v`: overwrites the existing binding in
place, or appends a new property when the key is absent. -/
def set (r : Row) (k : String) (v : CellValue) : Row :=
  match r with
  | [] => [(k, v)]
  | p :: rest => if p.1 == k then (k, v) :: rest else p :: set rest k v

end Row

/-! ## JS numeric parsing builtins

`parseFloat` / `parseInt` are host-language builtins; they are modelled
here on the value shapes this application feeds them: integer-valued
numbers, and strings whose numeric prefix is a decimal literal.  A parse
failure (JS `NaN`) is `none`. -/

/-- Leading decimal-digit run of a character list, as a natural number;
`none` when the list does not start with a digit (JS `NaN`). -/
def parseLeadingNat (cs : List Char) : Option Nat :=
  let ds := cs.takeWhile Char.isDigit
  if ds.isEmpty then none
  else some (ds.foldl (fun a c => a * 10 + (c.toNat - 48)) 0)

/-- Model of JS `parseInt` on a string: skip surrounding whitespace, read an
optional sign and a leading run of decimal digits; `NaN` is `none`. -/
def jsParseIntStr (s : String) : Option Int :=
  match jsTrimList s.toList with
  | '-' :: rest => (parseLeadingNat rest).map (fun n => -(n : Int))
  | '+' :: rest => (parseLeadingNat rest).map (fun n => (n : Int))
  | cs => (parseLeadingNat cs).map (fun n => (n : Int))

/-- Model of JS `parseInt` on a cell value.  `parseInt` stringifies its
argument first; for the integer-valued numbers this application stores,
the round trip is the identity, so the `num` case returns the integer
directly.  `null`/`undefined` stringify to `"null"`/`"undefined"` which
parse to `NaN`. -/
def jsParseIntCV : CellValue → Option Int
  | .num n => some n
  | .str s => jsParseIntStr s
  | .null => none
  | .undefined => none

/-- Optional fractional part `.d₁d₂…` of a decimal literal, as a rational. -/
def parseFracPart (cs : List Char) : Rat :=
  match cs with
  | '.' :: rest =>
    let ds := rest.takeWhile Char.isDigit
    (ds.foldl (fun a c => a * 10 + (c.toNat - 48)) 0 : Rat) /
      ((10 : Rat) ^ ds.length)
  | _ => 0

/-- Model of JS `parseFloat` on a string, restricted to the plain decimal
literals this application's data uses (optional sign, digits, optional
fraction); anything else is `NaN` (`none`). -/
def jsParseFloatStr (s : String) : Option Rat :=
  let core : List Char → Option Rat := fun cs =>
    match parseLeadingNat cs with
    | none => none
    | some n => some ((n : Rat) + parseFracPart (cs.dropWhile Char.isDigit))
  match jsTrimList s.toList with
  | '-' :: rest => (core rest).map (fun q => -q)
  | '+' :: rest => core rest
  | cs => core cs

/-- Model of JS `parseFloat` on a cell value (stringify, then parse; the
round trip is the identity on the integer-valued numbers stored here). -/
def jsParseFloatCV : CellValue → Option Rat
  | .num n => some (n : Rat)
  | .str s => jsParseFloatStr s
  | .null => none
  | .undefined => none

/-- Model of the JS `new RegExp(pattern, 'i').test(s)` builtin, restricted
to metacharacter-free patterns, where it is a case-insensitive substring
test; patterns containing regex metacharacters (and malformed patterns,
which JS catches and maps to `false`) are conservatively modelled as not
matching.  No claim exercises the `regex` operator. -/
def jsRegexTestI (pattern : String) (s : String) : Bool :=
  let metas : List Char := ['.', '*', '+', '?', '(', ')', '[', ']',
    '\x7b', '\x7d', '|', '^', '$', '\\']
  if pattern.toList.all (fun c => ¬ metas.contains c) then
    jsIncludes (jsToLower s) (jsToLower pattern)
  else
    false

/-! ## Filter Engine (`src/js/filterEngine.js`) -/

/-- A filter-condition value: JS accepts either a plain string or an array
of strings (multi-select `inList`). -/
inductive CondValue where
  | str : String → CondValue
  | list : List String → CondValue
  deriving DecidableEq, Repr

namespace CondValue

/-- JS `String(value)`: arrays stringify by joining entries with commas. -/
def jsString : CondValue → String
  | .str s => s
  | .list l => String.intercalate "," l

/-- JS falsiness of the condition value (`!value`): the empty string is
falsy; an array (even empty) is truthy. -/
def jsFalsy : CondValue → Bool
  | .str s => s == ""
  | .list _ => false

end CondValue

/-- One filter condition `{id, column, operator, value, active}`. -/
structure Condition where
  id : Nat
  column : String
  operator : String
  value : CondValue
  active : Bool
  deriving DecidableEq, Repr

/-- `FilterEngine.matchCondition(row, condition)`: the operator switch. -/
def matchCondition (row : Row) (c : Condition) : Bool :=
  let cellValue := row.get c.column
  -- Handle null/undefined: only `isEmpty` can succeed.
  if cellValue = .null ∨ cellValue = .undefined then
    if c.operator == "isEmpty" then true
    else if c.operator == "isNotEmpty" then false
    else false
  else
    let cellStr := jsToLower cellValue.jsString
    let valueStr := jsToLower c.value.jsString
    let cellNum := jsParseFloatCV cellValue
    let valueNum := jsParseFloatStr c.value.jsString
    if c.operator == "equals" then cellStr == valueStr
    else if c.operator == "notEquals" then cellStr != valueStr
    else if c.operator == "contains" then jsIncludes cellStr valueStr
    else if c.operator == "notContains" then !(jsIncludes cellStr valueStr)
    else if c.operator == "startsWith" then jsStartsWith cellStr valueStr
    else if c.operator == "endsWith" then jsEndsWith cellStr valueStr
    else if c.operator == "isEmpty" then
      cellStr == "" || cellStr == "null" || cellStr == "undefined"
    else if c.operator == "isNotEmpty" then
      cellStr != "" && cellStr != "null" && cellStr != "undefined"
    else if c.operator == "greaterThan" then
      match cellNum, valueNum with
      | some a, some b => a > b
      | _, _ => false
    else if c.operator == "lessThan" then
      match cellNum, valueNum with
      | some a, some b => a < b
      | _, _ => false
    else if c.operator == "greaterOrEqual" then
      match cellNum, valueNum with
      | some a, some b => a ≥ b
      | _, _ => false
    else if c.operator == "lessOrEqual" then
      match cellNum, valueNum with
      | some a, some b => a ≤ b
      | _, _ => false
    else if c.operator == "regex" then jsRegexTestI c.value.jsString cellStr
    else if c.operator == "inList" then
      if c.value.jsFalsy then false
      else
        let list : List String := match c.value with
          | .list l => l
          | .str s => (jsSplitCommas s).map (fun v => jsToLower (jsTrim v))
        list.any (fun item => jsToLower item == cellStr)
    else if c.operator == "notInList" then
      if c.value.jsFalsy then true
      else
        let excList : List String := match c.value with
          | .list l => l
          | .str s => (jsSplitCommas s).map (fun v => jsToLower (jsTrim v))
        !excList.any (fun item => jsToLower item == cellStr)
    else true

/-- `FilterEngine.matchesSearch(row)`: some cell's string form contains the
(already lowercased) search query; `null`/`undefined` cells never match. -/
def matchesSearch (searchQuery : String) (row : Row) : Bool :=
  if searchQuery == "" then true
  else row.any (fun p =>
    match p.2 with
    | .null => false
    | .undefined => false
    | v => jsIncludes (jsToLower (CellValue.jsString v)) searchQuery)

/-- `FilterEngine.matchesAllConditions(row, conditions)`. -/
def matchesAllConditions (row : Row) (conditions : List Condition) : Bool :=
  conditions.all (fun c => matchCondition row c)

/-- Mutable state of the `FilterEngine` singleton: conditions, search
query, and the filtered-view cache (`null` when invalidated). -/
structure FilterState where
  conditions : List Condition
  searchQuery : String
  filteredData : Option (List Row)
  filteredIndices : Option (List Nat)
  deriving Repr

/-- `FilterEngine.invalidateCache()`. -/
def invalidateCache (s : FilterState) : FilterState :=
  { s with filteredData := none, filteredIndices := none }

/-- The per-row keep test of the `apply` loop: excluded when a non-empty
search query matches no cell, otherwise included iff there are no active
conditions or all of them hold. -/
def keepRow (s : FilterState) (activeConditions : List Condition) (row : Row) : Bool :=
  if s.searchQuery != "" && !matchesSearch s.searchQuery row then false
  else activeConditions.isEmpty || matchesAllConditions row activeConditions

/-- The `data.forEach((row, index) => …)` accumulation of `apply`: walk the
rows in order from position `i`, pushing each kept row and its index. -/
def filterRows (keep : Row → Bool) : Nat → List Row → List Row × List Nat
  | _, [] => ([], [])
  | i, r :: rs =>
    let rec_ := filterRows keep (i + 1) rs
    if keep r then (r :: rec_.1, i :: rec_.2) else rec_

/-- The active conditions of `apply`: `c.active && c.column` (a condition
with an empty column name is skipped). -/
def activeConditions (s : FilterState) : List Condition :=
  s.conditions.filter (fun c => c.active && c.column != "")

/-- `FilterEngine.apply(data)`: return the memoized result when the cache
is populated, otherwise recompute from `data` and store the result. -/
def apply (data : List Row) (s : FilterState) :
    (List Row × List Nat) × FilterState :=
  match s.filteredData with
  | some fd => ((fd, s.filteredIndices.getD []), s)
  | none =>
    let act := activeConditions s
    let res := filterRows (keepRow s act) 0 data
    (res, { s with filteredData := some res.1, filteredIndices := some res.2 })

/-! ## Config (`src/js/configManager.js`) -/

/-- The configuration fields the batch subsystem reads
(`ConfigManager.getAll()`). -/
structure Config where
  SOURCE_COL : String
  CONTENT_COL : String
  BATCH_COL : String
  EMAIL_BATCH_COL : String
  REMIND_SMS_BATCH_COL : String
  REMIND_EMAIL_BATCH_COL : String
  OVERWRITE_BATCH : Bool
  TEMPLATE_TEXT : String
  deriving DecidableEq, Repr

/-- `ConfigManager.colToIndex`: spreadsheet letter to 0-based index
(`A=0, …, Z=25, AA=26, …`), computed as a base-26 value minus one. -/
def colToIndex (col : String) : Int :=
  (((jsTrimList col.toList).map Char.toUpper).foldl
    (fun n c => n * 26 + ((c.toNat : Int) - 64)) 0) - 1

/-! ## Data Manager (`DataManager` in the repository) -/

/-- The `DataManager` singleton state used by the batch subsystem: the row
store, the header order, the undo/redo stacks and the per-channel tracked
batch-number sets, plus the configuration it reads. -/
structure DMState where
  config : Config
  data : List Row
  headers : List String
  undoStack : List (List Row)
  redoStack : List (List Row)
  smsBatches : Finset Int
  emailBatches : Finset Int

/-- `DataManager.maxUndoSteps` (fixed bound of the undo stack). -/
def maxUndoSteps : Nat := 50

/-- JS `x || fallback` on an optional string: the fallback applies when the
option is `none` or holds the (falsy) empty string. -/
def jsOrString (o : Option String) (fallback : String) : String :=
  match o with
  | some s => if s == "" then fallback else s
  | none => fallback

/-- `DataManager.findColumn(colRef)`: resolve a column reference against
the headers — first as a spreadsheet letter, then as an exact header name,
then case-insensitively (also ignoring underscores and spaces). -/
def findColumn (headers : List String) (colRef : String) : Option String :=
  if colRef == "" then none
  else
    let byLetter : Option String :=
      if colRef ≠ "" ∧ colRef.toList.all Char.isAlpha then
        let index := colToIndex colRef
        if 0 ≤ index ∧ index.toNat < headers.length then
          headers.get? index.toNat
        else none
      else none
    match byLetter with
    | some h => some h
    | none =>
      if headers.contains colRef then some colRef
      else
        let lowerRef := jsToLower colRef
        let normalizedRef := (lowerRef.toList.filter
          (fun c => c ≠ '_' ∧ c ≠ ' ')).asString
        headers.find? (fun h =>
          jsToLower h == lowerRef ||
          ((jsToLower h).toList.filter (fun c => c ≠ '_' ∧ c ≠ ' ')).asString
            == normalizedRef)

/-- `DataManager.ensureColumn(name)`: append the header and give every row
an empty-string cell when the column does not exist yet. -/
def ensureColumn (s : DMState) (name : String) : DMState :=
  if s.headers.contains name then s
  else
    { s with
      headers := s.headers ++ [name]
      data := s.data.map (fun r => r.set name (.str "")) }

/-- `DataManager.saveUndoState()`: push a snapshot of the current data
(the head of the list is the newest snapshot), evict the oldest snapshot
past the depth bound, and clear the redo stack. -/
def saveUndoState (s : DMState) : DMState :=
  let st := s.data :: s.undoStack
  { s with
    undoStack := if st.length > maxUndoSteps then st.dropLast else st
    redoStack := [] }

/-- `DataManager.detectBatches()` helper: the set of positive integers
`parseInt` extracts from the truthy cells of one column. -/
def collectBatches (col : Option String) (data : List Row) : Finset Int :=
  data.foldl (fun acc row =>
    match col with
    | none => acc
    | some c =>
      let v := row.get c
      if v.jsTruthy then
        match jsParseIntCV v with
        | some b => if 0 < b then insert b acc else acc
        | none => acc
      else acc) ∅

/-- `DataManager.detectBatches()`: recompute the tracked sms/email batch
sets from the data. -/
def detectBatches (s : DMState) : DMState :=
  { s with
    smsBatches := collectBatches (findColumn s.headers s.config.BATCH_COL) s.data
    emailBatches :=
      collectBatches (findColumn s.headers s.config.EMAIL_BATCH_COL) s.data }

/-- `DataManager.undo()`: failure on an empty undo stack; otherwise push
the current data onto the redo stack, restore the top undo snapshot and
recompute the tracked batch sets. -/
def undo (s : DMState) : Bool × DMState :=
  match s.undoStack with
  | [] => (false, s)
  | top :: rest =>
    (true, detectBatches
      { s with
        redoStack := s.data :: s.redoStack
        data := top
        undoStack := rest })

/-- `DataManager.redo()`: symmetric to `undo`. -/
def redo (s : DMState) : Bool × DMState :=
  match s.redoStack with
  | [] => (false, s)
  | top :: rest =>
    (true, detectBatches
      { s with
        undoStack := s.data :: s.undoStack
        data := top
        redoStack := rest })

/-- `DataManager.getNextSmsBatch()`: 1 when no sms batch is tracked,
otherwise the maximum tracked number plus one. -/
def getNextSmsBatch (s : DMState) : Int :=
  if h : s.smsBatches.Nonempty then s.smsBatches.max' h + 1 else 1

/-- `DataManager.getNextEmailBatch()`. -/
def getNextEmailBatch (s : DMState) : Int :=
  if h : s.emailBatches.Nonempty then s.emailBatches.max' h + 1 else 1

/-- `DataManager.updateCell(rowIndex, column, value)`: resolve the column,
and when the row exists and already has the property, snapshot and write;
otherwise report failure without touching anything. -/
def updateCell (rowIndex : Int) (column : String) (value : CellValue)
    (s : DMState) : Bool × DMState :=
  if 0 ≤ rowIndex ∧ rowIndex < (s.data.length : Int) then
    let col := jsOrString (findColumn s.headers column) column
    match s.data.get? rowIndex.toNat with
    | some row =>
      if row.hasKey col then
        let s1 := saveUndoState s
        (true, { s1 with data := s1.data.set rowIndex.toNat (row.set col value) })
      else (false, s)
    | none => (false, s)
  else (false, s)

/-! ## Batch Manager (`BatchManager` in the repository)

Outcome messages are fixed placeholder strings: the claims never inspect
message contents, only the success flag and the numeric fields. -/

/-- Result of a mark operation: the `{success:false, message}` shape, or
the `{success:true, picked, newBatch, message}` shape. -/
inductive MarkResult where
  | failure (message : String)
  | ok (picked : Int) (newBatch : Int) (message : String)
  deriving DecidableEq, Repr

namespace MarkResult

/-- The `success` field. -/
def success : MarkResult → Bool
  | .failure _ => false
  | .ok _ _ _ => true

/-- The `picked` field (absent, read as 0, on the failure shape). -/
def pickedVal : MarkResult → Int
  | .failure _ => 0
  | .ok p _ _ => p

/-- The `newBatch` field (absent, read as 0, on the failure shape). -/
def newBatchVal : MarkResult → Int
  | .failure _ => 0
  | .ok _ b _ => b

end MarkResult

/-- Result of a delete operation. -/
inductive DeleteResult where
  | failure (message : String)
  | ok (deleted : Int) (message : String)
  deriving DecidableEq, Repr

namespace DeleteResult

/-- The `success` field. -/
def success : DeleteResult → Bool
  | .failure _ => false
  | .ok _ _ => true

/-- The `deleted` field (absent, read as 0, on the failure shape). -/
def deletedVal : DeleteResult → Int
  | .failure _ => 0
  | .ok d _ => d

end DeleteResult

/-- The common marking loop of the four `mark*Batch` functions: visit the
candidate indices in order, break once `picked` reaches `limit`, and for
each visited index apply the channel's eligibility test and row write.
`none` models the JS `TypeError` thrown when an index is out of range
(`data[idx]` is `undefined` and its property is read). -/
def markLoop (elig : Row → Bool) (write : Row → Row) (limit : Int) :
    List Nat → List Row → Int → Option (List Row × Int)
  | [], data, picked => some (data, picked)
  | idx :: rest, data, picked =>
    if picked ≥ limit then some (data, picked)
    else
      match data.get? idx with
      | none => none
      | some row =>
        if elig row then
          markLoop elig write limit rest (data.set idx (write row)) (picked + 1)
        else
          markLoop elig write limit rest data picked

/-- JS `headers[colToIndex(colRef)]`: `undefined` when the index is out of
range. -/
def letterHeader (headers : List String) (colRef : String) : Option String :=
  let i := colToIndex colRef
  if 0 ≤ i then headers.get? i.toNat else none

/-- The sms/email eligibility test: `overwrite || !hasBatch` where
`hasBatch` is `cell !== '' && cell !== null && cell !== undefined`. -/
def eligSmsEmail (overwrite : Bool) (batchCol : String) (row : Row) : Bool :=
  let v := row.get batchCol
  let hasBatch := v != .str "" && v != .null && v != .undefined
  overwrite || !hasBatch

/-- The remind-channel eligibility test: `!cell && cell !== 0` (the
overwrite flag is not consulted). -/
def eligRemind (batchCol : String) (row : Row) : Bool :=
  let v := row.get batchCol
  !v.jsTruthy && v != .num 0

/-- The column-ensuring stage of `markSmsBatch`: create the content and
batch columns when the configured references do not resolve (the JS
`headers` alias is live, so the second default lookup sees the first
appended column). -/
def smsEnsuredState (s : DMState) : DMState :=
  let contentCol := findColumn s.headers s.config.CONTENT_COL
  let batchCol := findColumn s.headers s.config.BATCH_COL
  let s1 := if contentCol = none then
      ensureColumn s (jsOrString (letterHeader s.headers s.config.CONTENT_COL) "SMS_Content")
    else s
  if batchCol = none then
    ensureColumn s1 (jsOrString (letterHeader s1.headers s.config.BATCH_COL) "SMS_Batch")
  else s1

/-- The column-ensuring stage of `markEmailBatch`. -/
def emailEnsuredState (s : DMState) : DMState :=
  if findColumn s.headers s.config.EMAIL_BATCH_COL = none then
    ensureColumn s (jsOrString (letterHeader s.headers s.config.EMAIL_BATCH_COL) "Email_Batch")
  else s

/-- The column-ensuring stage of `markRemindSmsBatch`. -/
def remindSmsEnsuredState (s : DMState) : DMState :=
  if findColumn s.headers s.config.REMIND_SMS_BATCH_COL = none then
    ensureColumn s (jsOrString (letterHeader s.headers s.config.REMIND_SMS_BATCH_COL) "Remind_SMS_Batch")
  else s

/-- The column-ensuring stage of `markRemindEmailBatch`. -/
def remindEmailEnsuredState (s : DMState) : DMState :=
  if findColumn s.headers s.config.REMIND_EMAIL_BATCH_COL = none then
    ensureColumn s (jsOrString (letterHeader s.headers s.config.REMIND_EMAIL_BATCH_COL) "Remind_Email_Batch")
  else s

/-- `BatchManager.markSmsBatch(limit, filteredIndices)`. -/
def markSmsBatch (limit : Int) (filteredIndices : Option (List Nat))
    (s : DMState) : Option (MarkResult × DMState) :=
  let config := s.config
  if s.data.length = 0 then
    some (.failure "Khong co du lieu de xu ly.", s)
  else
    let sourceCol := findColumn s.headers config.SOURCE_COL
    let s2 := smsEnsuredState s
    let actualContentCol := jsOrString (findColumn s2.headers config.CONTENT_COL) "SMS_Content"
    let actualBatchCol := jsOrString (findColumn s2.headers config.BATCH_COL) "SMS_Batch"
    let newBatch := getNextSmsBatch s2
    let template := config.TEMPLATE_TEXT
    let overwrite := config.OVERWRITE_BATCH
    let indicesToProcess := filteredIndices.getD (List.range s2.data.length)
    let s3 := saveUndoState s2
    let write := fun (row : Row) =>
      let sourceValue := match sourceCol with
        | some sc =>
          let sv := row.get sc
          if sv.jsTruthy then sv.jsString else ""
        | none => ""
      let content := template ++ sourceValue
      (row.set actualContentCol (.str content)).set actualBatchCol (.num newBatch)
    match markLoop (eligSmsEmail overwrite actualBatchCol) write limit
        indicesToProcess s3.data 0 with
    | none => none
    | some (data', picked) =>
      let s4 := { s3 with data := data' }
      let s5 := if 0 < picked then
          { s4 with smsBatches := insert newBatch s4.smsBatches }
        else s4
      some (.ok picked newBatch "Da gan SMS batch.", s5)

/-- `BatchManager.markEmailBatch(limit, filteredIndices)`. -/
def markEmailBatch (limit : Int) (filteredIndices : Option (List Nat))
    (s : DMState) : Option (MarkResult × DMState) :=
  let config := s.config
  if s.data.length = 0 then
    some (.failure "Khong co du lieu de xu ly.", s)
  else
    let s1 := emailEnsuredState s
    let actualBatchCol := jsOrString (findColumn s1.headers config.EMAIL_BATCH_COL) "Email_Batch"
    let newBatch := getNextEmailBatch s1
    let overwrite := config.OVERWRITE_BATCH
    let indicesToProcess := filteredIndices.getD (List.range s1.data.length)
    let s2 := saveUndoState s1
    let write := fun (row : Row) => row.set actualBatchCol (.num newBatch)
    match markLoop (eligSmsEmail overwrite actualBatchCol) write limit
        indicesToProcess s2.data 0 with
    | none => none
    | some (data', picked) =>
      let s3 := { s2 with data := data' }
      let s4 := if 0 < picked then
          { s3 with emailBatches := insert newBatch s3.emailBatches }
        else s3
      some (.ok picked newBatch "Da gan Email batch.", s4)

/-- The `maxBatch` fold of the remind-channel marking functions: the
largest non-`NaN` `parseInt` of the column's cells, starting from 0. -/
def columnMaxInt (col : String) (data : List Row) : Int :=
  data.foldl (fun maxBatch row =>
    match jsParseIntCV (row.get col) with
    | some val => if val > maxBatch then val else maxBatch
    | none => maxBatch) 0

/-- `BatchManager.markRemindSmsBatch(limit, filteredIndices)`. -/
def markRemindSmsBatch (limit : Int) (filteredIndices : Option (List Nat))
    (s : DMState) : Option (MarkResult × DMState) :=
  let config := s.config
  let batchColName := config.REMIND_SMS_BATCH_COL
  if s.data.length = 0 then
    some (.failure "No data.", s)
  else
    let s1 := remindSmsEnsuredState s
    let actualBatchCol := jsOrString (findColumn s1.headers batchColName) "Remind_SMS_Batch"
    let newBatch := columnMaxInt actualBatchCol s1.data + 1
    let indicesToProcess := filteredIndices.getD (List.range s1.data.length)
    let s2 := saveUndoState s1
    let write := fun (row : Row) => row.set actualBatchCol (.num newBatch)
    match markLoop (eligRemind actualBatchCol) write limit
        indicesToProcess s2.data 0 with
    | none => none
    | some (data', picked) =>
      some (.ok picked newBatch "Marked Remind SMS batch.",
        { s2 with data := data' })

/-- `BatchManager.markRemindEmailBatch(limit, filteredIndices)`. -/
def markRemindEmailBatch (limit : Int) (filteredIndices : Option (List Nat))
    (s : DMState) : Option (MarkResult × DMState) :=
  let config := s.config
  let batchColName := config.REMIND_EMAIL_BATCH_COL
  if s.data.length = 0 then
    some (.failure "No data.", s)
  else
    let s1 := remindEmailEnsuredState s
    let actualBatchCol := jsOrString (findColumn s1.headers batchColName) "Remind_Email_Batch"
    let newBatch := columnMaxInt actualBatchCol s1.data + 1
    let indicesToProcess := filteredIndices.getD (List.range s1.data.length)
    let s2 := saveUndoState s1
    let write := fun (row : Row) => row.set actualBatchCol (.num newBatch)
    match markLoop (eligRemind actualBatchCol) write limit
        indicesToProcess s2.data 0 with
    | none => none
    | some (data', picked) =>
      some (.ok picked newBatch "Marked Remind Email batch.",
        { s2 with data := data' })

/-- `BatchManager.deleteSmsBatch(batchNumber)`: clear the batch cell (and
the content cell, when resolvable) of every row whose batch cell strictly
equals the number, untrack the number, and count the cleared rows. -/
def deleteSmsBatch (batchNumber : Int) (s : DMState) : DeleteResult × DMState :=
  let batchCol := findColumn s.headers s.config.BATCH_COL
  let contentCol := findColumn s.headers s.config.CONTENT_COL
  match batchCol with
  | none => (.failure "Khong tim thay cot batch SMS.", s)
  | some bc =>
    let s1 := saveUndoState s
    let clearRow := fun (row : Row) =>
      if row.get bc == .num batchNumber then
        let r1 := row.set bc (.str "")
        match contentCol with
        | some cc => r1.set cc (.str "")
        | none => r1
      else row
    let deleted : Int := s1.data.countP (fun row => row.get bc == .num batchNumber)
    (.ok deleted "Da xoa SMS batch.",
      { s1 with
        data := s1.data.map clearRow
        smsBatches := s1.smsBatches.erase batchNumber })

/-- `BatchManager.deleteEmailBatch(batchNumber)`. -/
def deleteEmailBatch (batchNumber : Int) (s : DMState) : DeleteResult × DMState :=
  let batchCol := findColumn s.headers s.config.EMAIL_BATCH_COL
  match batchCol with
  | none => (.failure "Khong tim thay cot batch Email.", s)
  | some bc =>
    let s1 := saveUndoState s
    let clearRow := fun (row : Row) =>
      if row.get bc == .num batchNumber then row.set bc (.str "")
      else row
    let deleted : Int := s1.data.countP (fun row => row.get bc == .num batchNumber)
    (.ok deleted "Da xoa Email batch.",
      { s1 with
        data := s1.data.map clearRow
        emailBatches := s1.emailBatches.erase batchNumber })

/-! ## Spec-side definitions

These follow the specification's wording, for comparison against the
implementation functions above. -/

/-- The documented operator vocabulary (`FilterEngine.getOperators`,
spec §6). -/
def operatorVocabulary : List String :=
  ["equals", "notEquals", "contains", "notContains", "startsWith",
   "endsWith", "isEmpty", "isNotEmpty", "greaterThan", "lessThan",
   "greaterOrEqual", "lessOrEqual", "regex", "inList", "notInList"]

/-- Modelled from the spec: the next batch number for a channel is
`max(existing batch numbers) + 1`, defaulting to 1 when none exist. -/
def specNextBatchNumber (t : Finset Int) : Int :=
  if h : t.Nonempty then t.max' h + 1 else 1

/-- Modelled from the spec: visiting the candidates in order, skipping
ineligible ones without consuming budget and stopping after `limit`
picks, selects exactly the first `limit` eligible candidates. -/
def firstEligibleIndices (elig : Nat → Bool) (limit : Int)
    (candidates : List Nat) : List Nat :=
  (candidates.filter elig).take limit.toNat

/-- The row at a (known in-range) position. -/
def rowAt (data : List Row) (i : Nat) : Row := data.getD i []

/-! ## Concrete example data for witnesses and counterexamples -/

/-- A configuration referencing every batch column by its literal header
name. -/
def namedConfig (ov : Bool) : Config :=
  { SOURCE_COL := "Source", CONTENT_COL := "SMS_Content",
    BATCH_COL := "SMS_Batch", EMAIL_BATCH_COL := "Email_Batch",
    REMIND_SMS_BATCH_COL := "Remind_SMS_Batch",
    REMIND_EMAIL_BATCH_COL := "Remind_Email_Batch",
    OVERWRITE_BATCH := ov, TEMPLATE_TEXT := "Msg: " }

/-- The default letter-based column configuration
(`ConfigManager.DEFAULTS`). -/
def letterConfig : Config :=
  { SOURCE_COL := "E", CONTENT_COL := "P", BATCH_COL := "Q",
    EMAIL_BATCH_COL := "S", REMIND_SMS_BATCH_COL := "T",
    REMIND_EMAIL_BATCH_COL := "U",
    OVERWRITE_BATCH := false, TEMPLATE_TEXT := "Msg: " }

/-- The header set matching `namedConfig`. -/
def exHeaders : List String :=
  ["Source", "SMS_Content", "SMS_Batch", "Email_Batch",
   "Remind_SMS_Batch", "Remind_Email_Batch"]

/-- One data row over `exHeaders`. -/
def exRow (src : String) (smsB emailB rsmsB remailB : CellValue) : Row :=
  [("Source", .str src), ("SMS_Content", .str ""), ("SMS_Batch", smsB),
   ("Email_Batch", emailB), ("Remind_SMS_Batch", rsmsB),
   ("Remind_Email_Batch", remailB)]

/-- Three rows, no batch assigned anywhere. -/
def exFreshState : DMState :=
  { config := namedConfig false
    data := [exRow "a" (.str "") (.str "") (.str "") (.str ""),
             exRow "b" (.str "") (.str "") (.str "") (.str ""),
             exRow "c" (.str "") (.str "") (.str "") (.str "")]
    headers := exHeaders
    undoStack := [], redoStack := [], smsBatches := ∅, emailBatches := ∅ }

/-- A state with no data loaded. -/
def exEmptyState : DMState :=
  { config := namedConfig false, data := [], headers := exHeaders
    undoStack := [], redoStack := [[[("Source", CellValue.str "old")]]]
    smsBatches := ∅, emailBatches := ∅ }

/-- Two rows in sms batch 1, one in sms batch 2 (spec Scenario D). -/
def exMarkedState : DMState :=
  { config := namedConfig false
    data := [exRow "a" (.num 1) (.str "") (.str "") (.str ""),
             exRow "b" (.num 2) (.str "") (.str "") (.str ""),
             exRow "c" (.num 1) (.str "") (.str "") (.str "")]
    headers := exHeaders
    undoStack := [], redoStack := [], smsBatches := {1, 2}, emailBatches := ∅ }

/-- Overwrite enabled, one row already holding remind-sms batch 1. -/
def exRemindMarkedState : DMState :=
  { config := namedConfig true
    data := [exRow "a" (.str "") (.str "") (.num 1) (.str "")]
    headers := exHeaders
    undoStack := [], redoStack := [], smsBatches := ∅, emailBatches := ∅ }

/-- Letter-based config over headers too short to contain the configured
batch/content columns, so `markSmsBatch` creates them. -/
def exMissingColsState : DMState :=
  { config := letterConfig
    data := [[("A", CellValue.str "x")]]
    headers := ["A"]
    undoStack := [], redoStack := [], smsBatches := ∅, emailBatches := ∅ }

/-- Spec Scenario C condition: `Status equals Complete`. -/
def exCondition : Condition :=
  { id := 1, column := "Status", operator := "equals",
    value := .str "Complete", active := true }

/-- A condition whose operator is outside the documented vocabulary. -/
def exUnknownOpCondition : Condition :=
  { id := 2, column := "Status", operator := "between",
    value := .str "", active := true }

/-- A filter state holding only the Scenario C condition, cache empty. -/
def exFilterState : FilterState :=
  { conditions := [exCondition], searchQuery := ""
    filteredData := none, filteredIndices := none }

/-- The Scenario C rows. -/
def exRows : List Row :=
  [[("Status", .str "Complete")], [("Status", .str "Partial")],
   [("Status", .str "complete")]]

/-! ## Helper lemmas -/

theorem Row.get_set_self : ∀ (r : Row) (k : String) (v : CellValue),
    (Row.set r k v).get k = v
  | [], k, v => by simp [Row.set, Row.get]
  | p :: rest, k, v => by
    cases h : (p.1 == k) with
    | true => simp [Row.set, h, Row.get]
    | false =>
      have ih := Row.get_set_self rest k v
      simp only [Row.set, h, Bool.false_eq_true, if_false, Row.get,
        List.find?_cons, h] at ih ⊢
      exact ih

theorem Row.get_set_ne : ∀ (r : Row) (k k' : String) (v : CellValue),
    k' ≠ k → (Row.set r k v).get k' = r.get k'
  | [], k, k', v, h => by
    simp [Row.set, Row.get, List.find?_cons, beq_eq_false_iff_ne.2 (Ne.symm h)]
  | p :: rest, k, k', v, h => by
    have ih := Row.get_set_ne rest k k' v h
    cases hpk : (p.1 == k) with
    | true =>
      have hk : p.1 = k := by simpa using hpk
      have hkk' : (k == k') = false := beq_eq_false_iff_ne.2 (Ne.symm h)
      have hpk' : (p.1 == k') = false := by rw [hk]; exact hkk'
      simp [Row.set, hpk, Row.get, List.find?_cons, hkk', hpk']
    | false =>
      simp only [Row.set, hpk, Bool.false_eq_true, if_false, Row.get,
        List.find?_cons] at ih ⊢
      cases hpk' : (p.1 == k') <;> simp [ih]

@[simp] theorem ensureColumn_config (s : DMState) (n : String) :
    (ensureColumn s n).config = s.config := by
  unfold ensureColumn; split <;> rfl

@[simp] theorem ensureColumn_undoStack (s : DMState) (n : String) :
    (ensureColumn s n).undoStack = s.undoStack := by
  unfold ensureColumn; split <;> rfl

@[simp] theorem ensureColumn_redoStack (s : DMState) (n : String) :
    (ensureColumn s n).redoStack = s.redoStack := by
  unfold ensureColumn; split <;> rfl

@[simp] theorem ensureColumn_smsBatches (s : DMState) (n : String) :
    (ensureColumn s n).smsBatches = s.smsBatches := by
  unfold ensureColumn; split <;> rfl

@[simp] theorem ensureColumn_emailBatches (s : DMState) (n : String) :
    (ensureColumn s n).emailBatches = s.emailBatches := by
  unfold ensureColumn; split <;> rfl

@[simp] theorem ensureColumn_data_length (s : DMState) (n : String) :
    (ensureColumn s n).data.length = s.data.length := by
  unfold ensureColumn; split <;> simp

@[simp] theorem saveUndoState_config (s : DMState) :
    (saveUndoState s).config = s.config := rfl

@[simp] theorem saveUndoState_data (s : DMState) :
    (saveUndoState s).data = s.data := rfl

@[simp] theorem saveUndoState_headers (s : DMState) :
    (saveUndoState s).headers = s.headers := rfl

@[simp] theorem saveUndoState_redoStack (s : DMState) :
    (saveUndoState s).redoStack = [] := rfl

@[simp] theorem saveUndoState_smsBatches (s : DMState) :
    (saveUndoState s).smsBatches = s.smsBatches := rfl

@[simp] theorem saveUndoState_emailBatches (s : DMState) :
    (saveUndoState s).emailBatches = s.emailBatches := rfl

@[simp] theorem detectBatches_config (s : DMState) :
    (detectBatches s).config = s.config := rfl

@[simp] theorem detectBatches_data (s : DMState) :
    (detectBatches s).data = s.data := rfl

@[simp] theorem detectBatches_headers (s : DMState) :
    (detectBatches s).headers = s.headers := rfl

@[simp] theorem detectBatches_undoStack (s : DMState) :
    (detectBatches s).undoStack = s.undoStack := rfl

@[simp] theorem detectBatches_redoStack (s : DMState) :
    (detectBatches s).redoStack = s.redoStack := rfl

/-! ## C4 — undo followed by redo restores the Row Store -/

/-- C4: whenever at least one undo snapshot exists, `undo()` immediately
followed by `redo()` leaves the Row Store (the data rows) value-equal to
its state just before the undo. -/
theorem undo_redo_roundtrip (s : DMState) (h : s.undoStack ≠ []) :
    ((redo (undo s).2).2).data = s.data := by
  cases hs : s.undoStack with
  | nil => exact absurd hs h
  | cons top rest => simp [undo, hs, redo, detectBatches]

/-- C4 witness: the round trip on a concrete one-snapshot state. -/
theorem undo_redo_roundtrip_witness :
    ({ exMarkedState with undoStack := [exFreshState.data] } : DMState).undoStack ≠ [] ∧
    ((redo (undo { exMarkedState with undoStack := [exFreshState.data] }).2).2).data
      = ({ exMarkedState with undoStack := [exFreshState.data] } : DMState).data :=
  ⟨by decide, undo_redo_roundtrip _ (by decide)⟩

/-! ## C5 — every snapshot-pushing operation leaves the redo stack empty -/

/-- Projection helper: an `ite` of two states with empty redo stacks has
an empty redo stack. -/
theorem redoStack_ite (c : Prop) [Decidable c] (a b : DMState)
    (ha : a.redoStack = []) (hb : b.redoStack = []) :
    (if c then a else b).redoStack = [] := by
  split
  · exact ha
  · exact hb

/-- C5: every mutating operation that reaches its snapshot push (signalled
by a successful result) leaves the redo stack empty — marking on all four
channels, batch deletion on both channels, and cell updates.  Performing
any of them after `undo()` therefore discards every redo entry. -/
theorem mutating_ops_clear_redo (limit : Int) (idxs : Option (List Nat))
    (s : DMState) (n : Int) (i : Int) (col : String) (v : CellValue) :
    (∀ p ∈ markSmsBatch limit idxs s, p.1.success = true → p.2.redoStack = []) ∧
    (∀ p ∈ markEmailBatch limit idxs s, p.1.success = true → p.2.redoStack = []) ∧
    (∀ p ∈ markRemindSmsBatch limit idxs s, p.1.success = true → p.2.redoStack = []) ∧
    (∀ p ∈ markRemindEmailBatch limit idxs s, p.1.success = true → p.2.redoStack = []) ∧
    ((deleteSmsBatch n s).1.success = true → (deleteSmsBatch n s).2.redoStack = []) ∧
    ((deleteEmailBatch n s).1.success = true → (deleteEmailBatch n s).2.redoStack = []) ∧
    ((updateCell i col v s).1 = true → (updateCell i col v s).2.redoStack = []) := by
  refine ⟨?_, ?_, ?_, ?_, ?_, ?_, ?_⟩
  · intro p hp hsucc
    rw [Option.mem_def] at hp
    simp only [markSmsBatch] at hp
    split at hp
    · cases hp; simp [MarkResult.success] at hsucc
    · split at hp
      · cases hp
      · cases hp
        exact redoStack_ite _ _ _ rfl rfl
  · intro p hp hsucc
    rw [Option.mem_def] at hp
    simp only [markEmailBatch] at hp
    split at hp
    · cases hp; simp [MarkResult.success] at hsucc
    · split at hp
      · cases hp
      · cases hp
        exact redoStack_ite _ _ _ rfl rfl
  · intro p hp hsucc
    rw [Option.mem_def] at hp
    simp only [markRemindSmsBatch] at hp
    split at hp
    · cases hp; simp [MarkResult.success] at hsucc
    · split at hp
      · cases hp
      · cases hp; rfl
  · intro p hp hsucc
    rw [Option.mem_def] at hp
    simp only [markRemindEmailBatch] at hp
    split at hp
    · cases hp; simp [MarkResult.success] at hsucc
    · split at hp
      · cases hp
      · cases hp; rfl
  · rcases hd : deleteSmsBatch n s with ⟨r, s2⟩
    intro hsucc
    simp only [deleteSmsBatch] at hd
    split at hd
    · cases hd; simp [DeleteResult.success] at hsucc
    · cases hd; simp
  · rcases hd : deleteEmailBatch n s with ⟨r, s2⟩
    intro hsucc
    simp only [deleteEmailBatch] at hd
    split at hd
    · cases hd; simp [DeleteResult.success] at hsucc
    · cases hd; simp
  · rcases hu : updateCell i col v s with ⟨b, s2⟩
    intro hb
    simp only [updateCell] at hu
    split at hu
    · split at hu
      · split at hu
        · cases hu; simp
        · cases hu; cases hb
      · cases hu; cases hb
    · cases hu; cases hb

/-- Evaluation bridge used by the C5 witness: when a mark operation is
known to clear the redo stack on success, and on the concrete input it
does succeed, the returned redo stack is empty. -/
theorem option_map_redo_eval {o : Option (MarkResult × DMState)}
    (hall : ∀ p ∈ o, p.1.success = true → p.2.redoStack = [])
    (hs : o.map (fun p => p.1.success) = some true) :
    o.map (fun p => p.2.redoStack) = some [] := by
  cases o with
  | none => simp at hs
  | some p =>
    simp only [Option.map_some'] at hs ⊢
    rw [hall p rfl (by exact Option.some.inj hs)]

/-- C5 witness: concrete successful runs of all seven mutating operations
end with an empty redo stack. -/
theorem mutating_ops_clear_redo_witness :
    ((markSmsBatch 1 none exFreshState).map fun p => p.2.redoStack) = some [] ∧
    ((markEmailBatch 1 none exFreshState).map fun p => p.2.redoStack) = some [] ∧
    ((markRemindSmsBatch 1 none exFreshState).map fun p => p.2.redoStack) = some [] ∧
    ((markRemindEmailBatch 1 none exFreshState).map fun p => p.2.redoStack) = some [] ∧
    (deleteSmsBatch 1 exMarkedState).2.redoStack = [] ∧
    (deleteEmailBatch 1 exMarkedState).2.redoStack = [] ∧
    (updateCell 0 "Source" (CellValue.str "z") exFreshState).2.redoStack = [] := by
  obtain ⟨h1, h2, h3, h4, h5, h6, h7⟩ :=
    mutating_ops_clear_redo 1 none exFreshState 1 0 "Source" (CellValue.str "z")
  obtain ⟨-, -, -, -, h5', h6', -⟩ :=
    mutating_ops_clear_redo 1 none exMarkedState 1 0 "Source" (CellValue.str "z")
  refine ⟨option_map_redo_eval h1 (by decide), option_map_redo_eval h2 (by decide),
    option_map_redo_eval h3 (by decide), option_map_redo_eval h4 (by decide),
    h5' (by decide), h6' (by decide), h7 (by decide)⟩

/-! ## C10 — the filtered-view cache is keyed only on the invalidation flag -/

/-- C10: after `apply(d1)` fills the cache, a later `apply(d2)` with no
intervening invalidation returns the result computed from `d1`, leaving
the state untouched, even when `d2` differs from `d1`; only after
`invalidateCache()` does `apply(d2)` recompute from the list actually
passed. -/
theorem apply_cache_ignores_data (s : FilterState) (d1 d2 : List Row) :
    (apply d2 ((apply d1 (invalidateCache s)).2)).1 = (apply d1 (invalidateCache s)).1 ∧
    (apply d2 ((apply d1 (invalidateCache s)).2)).2 = (apply d1 (invalidateCache s)).2 ∧
    (apply d1 (invalidateCache s)).1 =
      filterRows (keepRow (invalidateCache s) (activeConditions (invalidateCache s))) 0 d1 ∧
    (apply d2 (invalidateCache ((apply d1 (invalidateCache s)).2))).1 =
      filterRows (keepRow (invalidateCache s) (activeConditions (invalidateCache s))) 0 d2 := by
  refine ⟨?_, ?_, ?_, ?_⟩ <;>
    simp [apply, invalidateCache, keepRow, activeConditions]

/-! ## C3 — filtering yields a strictly increasing subsequence of [0..n-1] -/

/-- The indices pushed by the `apply` accumulation loop form a sublist of
the index interval it walks. -/
theorem filterRows_sublist (keep : Row → Bool) : ∀ (i : Nat) (rs : List Row),
    (filterRows keep i rs).2.Sublist (List.range' i rs.length)
  | i, [] => by simp [filterRows]
  | i, r :: rs => by
    have ih := filterRows_sublist keep (i + 1) rs
    rw [List.length_cons, List.range'_succ i rs.length 1]
    unfold filterRows
    split
    · exact ih.cons₂ i
    · exact ih.cons i

/-- C3: whenever the cache is empty (a fresh computation, as after any
invalidation), the index list returned by `apply` is a strictly
increasing subsequence of `[0..n-1]` — a sublist of `range n`, pairwise
increasing: filtering preserves Row Store order and never duplicates. -/
theorem filter_indices_increasing (s : FilterState) (data : List Row)
    (h : s.filteredData = none) :
    (apply data s).1.2.Sublist (List.range data.length) ∧
    List.Pairwise (· < ·) (apply data s).1.2 := by
  have hs : (apply data s).1.2 = (filterRows (keepRow s (activeConditions s)) 0 data).2 := by
    simp [apply, h]
  have hsub := filterRows_sublist (keepRow s (activeConditions s)) 0 data
  rw [hs, List.range_eq_range' data.length] at *
  exact ⟨hsub, (List.pairwise_lt_range' 0 data.length).sublist hsub⟩

/-- C3 witness: the Scenario C filter run has strictly increasing indices
inside bounds. -/
theorem filter_indices_increasing_witness :
    exFilterState.filteredData = none ∧
    (apply exRows exFilterState).1.2.Sublist (List.range exRows.length) ∧
    List.Pairwise (· < ·) (apply exRows exFilterState).1.2 :=
  ⟨rfl, filter_indices_increasing exFilterState exRows rfl⟩

/-! ## C9 — unknown operator is a permissive fallback, except on absent cells -/

/-- C9 counterexample: on a row where the condition's column is absent
(`undefined` cell), a condition with an operator outside the documented
vocabulary evaluates to `false`, not `true` — the claim fails for such
rows. -/
theorem unknown_operator_counterexample :
    exUnknownOpCondition.operator ∉ operatorVocabulary ∧
    matchCondition [] exUnknownOpCondition = false := by
  constructor
  · decide
  · decide

/-- C9 (amended): a condition whose operator is outside the documented
vocabulary evaluates to `true` on every row whose cell for the condition's
column is an actual value — neither `null` nor `undefined` (absent). -/
theorem unknown_operator_permissive (row : Row) (c : Condition)
    (hop : c.operator ∉ operatorVocabulary)
    (hnull : row.get c.column ≠ .null)
    (hundef : row.get c.column ≠ .undefined) :
    matchCondition row c = true := by
  simp only [operatorVocabulary, List.mem_cons, List.not_mem_nil, or_false] at hop
  push_neg at hop
  obtain ⟨h1, h2, h3, h4, h5, h6, h7, h8, h9, h10, h11, h12, h13, h14, h15⟩ := hop
  unfold matchCondition
  rw [if_neg (by push_neg; exact ⟨hnull, hundef⟩)]
  simp only [beq_iff_eq, h1, h2, h3, h4, h5, h6, h7, h8, h9, h10, h11, h12,
    h13, h14, h15, if_false]

/-- C9 witness: the unknown-operator condition holds on a row where the
column carries a string. -/
theorem unknown_operator_permissive_witness :
    (exUnknownOpCondition.operator ∉ operatorVocabulary ∧
      Row.get [("Status", CellValue.str "v")] exUnknownOpCondition.column ≠ CellValue.null ∧
      Row.get [("Status", CellValue.str "v")] exUnknownOpCondition.column ≠ CellValue.undefined) ∧
    matchCondition [("Status", CellValue.str "v")] exUnknownOpCondition = true :=
  ⟨⟨by decide, by decide, by decide⟩,
    unknown_operator_permissive _ _ (by decide) (by decide) (by decide)⟩

/-! ## C6 — precondition handling of markBatch -/

/-- A non-positive limit makes the marking loop break before visiting any
candidate, touching nothing. -/
theorem markLoop_nonpos (elig : Row → Bool) (write : Row → Row)
    (limit : Int) (hlim : limit ≤ 0) (idxs : List Nat) (data : List Row) :
    markLoop elig write limit idxs data 0 = some (data, 0) := by
  cases idxs with
  | nil => rfl
  | cons i rest =>
    unfold markLoop
    rw [if_pos (show (0 : Int) ≥ limit from hlim)]

/-- C6 counterexample: on a loaded store, a zero limit does not produce a
`{success:false}` result — `markSmsBatch` succeeds with zero picked rows
(the claim asserts `success = false` for zero limits). -/
theorem zero_limit_counterexample :
    (markSmsBatch 0 none exFreshState).map (fun p => p.1.success) = some true := by
  decide

/-- C6 (amended): with no data loaded every channel's markBatch returns a
structured failure result without throwing, leaving the state untouched;
markBatch itself does not validate the limit — with a zero or negative
limit it still returns a structured result without throwing, a success
with zero picked rows (the zero/invalid-limit guard lives in the UI
wrapper `markBatchPrompt`, which refuses to call markBatch). -/
theorem markBatch_precondition_handling (limit : Int)
    (idxs : Option (List Nat)) (s : DMState) :
    (s.data = [] →
      ((markSmsBatch limit idxs s).map (fun p => (p.1.success, p.2)) = some (false, s)) ∧
      ((markEmailBatch limit idxs s).map (fun p => (p.1.success, p.2)) = some (false, s)) ∧
      ((markRemindSmsBatch limit idxs s).map (fun p => (p.1.success, p.2)) = some (false, s)) ∧
      ((markRemindEmailBatch limit idxs s).map (fun p => (p.1.success, p.2)) = some (false, s))) ∧
    (limit ≤ 0 → s.data ≠ [] →
      ((markSmsBatch limit idxs s).map (fun p => (p.1.success, p.1.pickedVal)) = some (true, 0)) ∧
      ((markEmailBatch limit idxs s).map (fun p => (p.1.success, p.1.pickedVal)) = some (true, 0)) ∧
      ((markRemindSmsBatch limit idxs s).map (fun p => (p.1.success, p.1.pickedVal)) = some (true, 0)) ∧
      ((markRemindEmailBatch limit idxs s).map (fun p => (p.1.success, p.1.pickedVal)) = some (true, 0))) := by
  constructor
  · intro h
    refine ⟨?_, ?_, ?_, ?_⟩ <;>
      simp [markSmsBatch, markEmailBatch, markRemindSmsBatch,
        markRemindEmailBatch, h, MarkResult.success]
  · intro hlim hne
    have hlen : ¬ s.data.length = 0 := by simpa using hne
    refine ⟨?_, ?_, ?_, ?_⟩
    · simp only [markSmsBatch, hlen, if_false, markLoop_nonpos _ _ limit hlim]
      simp [MarkResult.success, MarkResult.pickedVal]
    · simp only [markEmailBatch, hlen, if_false, markLoop_nonpos _ _ limit hlim]
      simp [MarkResult.success, MarkResult.pickedVal]
    · simp only [markRemindSmsBatch, hlen, if_false, markLoop_nonpos _ _ limit hlim]
      simp [MarkResult.success, MarkResult.pickedVal]
    · simp only [markRemindEmailBatch, hlen, if_false, markLoop_nonpos _ _ limit hlim]
      simp [MarkResult.success, MarkResult.pickedVal]

/-- C6 witness: concrete runs of both amended branches — no data loaded,
and a zero limit on a loaded store. -/
theorem markBatch_precondition_handling_witness :
    (exEmptyState.data = [] ∧
      (markSmsBatch 5 none exEmptyState).map (fun p => (p.1.success, p.2))
        = some (false, exEmptyState)) ∧
    ((0 : Int) ≤ 0 ∧ exFreshState.data ≠ [] ∧
      (markSmsBatch 0 none exFreshState).map (fun p => (p.1.success, p.1.pickedVal))
        = some (true, 0)) :=
  ⟨⟨rfl, ((markBatch_precondition_handling 5 none exEmptyState).1 rfl).1⟩,
   ⟨le_refl 0, by decide,
     ((markBatch_precondition_handling 0 none exFreshState).2 (le_refl 0) (by decide)).1⟩⟩

/-! ## C7 — markBatch pushes exactly one snapshot, taken after column creation -/

/-- Projection helper: an `ite` of two states whose undo stacks satisfy
the same two-way description. -/
theorem undoStack_ite_disj (c : Prop) [Decidable c] (a b : DMState)
    (u v : List (List Row))
    (hau : a.undoStack = u ∨ a.undoStack = v)
    (hbu : b.undoStack = u ∨ b.undoStack = v) :
    (if c then a else b).undoStack = u ∨ (if c then a else b).undoStack = v := by
  split
  · exact hau
  · exact hbu

@[simp] theorem smsEnsuredState_undoStack (s : DMState) :
    (smsEnsuredState s).undoStack = s.undoStack := by
  simp only [smsEnsuredState]
  split <;> split <;> simp

@[simp] theorem smsEnsuredState_redoStack (s : DMState) :
    (smsEnsuredState s).redoStack = s.redoStack := by
  simp only [smsEnsuredState]
  split <;> split <;> simp

@[simp] theorem smsEnsuredState_config (s : DMState) :
    (smsEnsuredState s).config = s.config := by
  simp only [smsEnsuredState]
  split <;> split <;> simp

@[simp] theorem smsEnsuredState_smsBatches (s : DMState) :
    (smsEnsuredState s).smsBatches = s.smsBatches := by
  simp only [smsEnsuredState]
  split <;> split <;> simp

@[simp] theorem smsEnsuredState_data_length (s : DMState) :
    (smsEnsuredState s).data.length = s.data.length := by
  simp only [smsEnsuredState]
  split <;> split <;> simp

theorem smsEnsuredState_eq_self (s : DMState)
    (hc : findColumn s.headers s.config.CONTENT_COL ≠ none)
    (hb : findColumn s.headers s.config.BATCH_COL ≠ none) :
    smsEnsuredState s = s := by
  simp only [smsEnsuredState]
  rw [if_neg hc, if_neg hb]

@[simp] theorem emailEnsuredState_undoStack (s : DMState) :
    (emailEnsuredState s).undoStack = s.undoStack := by
  simp only [emailEnsuredState]
  split <;> simp

@[simp] theorem emailEnsuredState_redoStack (s : DMState) :
    (emailEnsuredState s).redoStack = s.redoStack := by
  simp only [emailEnsuredState]
  split <;> simp

@[simp] theorem emailEnsuredState_config (s : DMState) :
    (emailEnsuredState s).config = s.config := by
  simp only [emailEnsuredState]
  split <;> simp

@[simp] theorem emailEnsuredState_emailBatches (s : DMState) :
    (emailEnsuredState s).emailBatches = s.emailBatches := by
  simp only [emailEnsuredState]
  split <;> simp

@[simp] theorem emailEnsuredState_data_length (s : DMState) :
    (emailEnsuredState s).data.length = s.data.length := by
  simp only [emailEnsuredState]
  split <;> simp

theorem emailEnsuredState_eq_self (s : DMState)
    (hb : findColumn s.headers s.config.EMAIL_BATCH_COL ≠ none) :
    emailEnsuredState s = s := by
  simp only [emailEnsuredState]
  rw [if_neg hb]

@[simp] theorem remindSmsEnsuredState_undoStack (s : DMState) :
    (remindSmsEnsuredState s).undoStack = s.undoStack := by
  simp only [remindSmsEnsuredState]
  split <;> simp

@[simp] theorem remindSmsEnsuredState_redoStack (s : DMState) :
    (remindSmsEnsuredState s).redoStack = s.redoStack := by
  simp only [remindSmsEnsuredState]
  split <;> simp

@[simp] theorem remindSmsEnsuredState_config (s : DMState) :
    (remindSmsEnsuredState s).config = s.config := by
  simp only [remindSmsEnsuredState]
  split <;> simp

@[simp] theorem remindSmsEnsuredState_data_length (s : DMState) :
    (remindSmsEnsuredState s).data.length = s.data.length := by
  simp only [remindSmsEnsuredState]
  split <;> simp

theorem remindSmsEnsuredState_eq_self (s : DMState)
    (hb : findColumn s.headers s.config.REMIND_SMS_BATCH_COL ≠ none) :
    remindSmsEnsuredState s = s := by
  simp only [remindSmsEnsuredState]
  rw [if_neg hb]

@[simp] theorem remindEmailEnsuredState_undoStack (s : DMState) :
    (remindEmailEnsuredState s).undoStack = s.undoStack := by
  simp only [remindEmailEnsuredState]
  split <;> simp

@[simp] theorem remindEmailEnsuredState_redoStack (s : DMState) :
    (remindEmailEnsuredState s).redoStack = s.redoStack := by
  simp only [remindEmailEnsuredState]
  split <;> simp

@[simp] theorem remindEmailEnsuredState_config (s : DMState) :
    (remindEmailEnsuredState s).config = s.config := by
  simp only [remindEmailEnsuredState]
  split <;> simp

@[simp] theorem remindEmailEnsuredState_data_length (s : DMState) :
    (remindEmailEnsuredState s).data.length = s.data.length := by
  simp only [remindEmailEnsuredState]
  split <;> simp

theorem remindEmailEnsuredState_eq_self (s : DMState)
    (hb : findColumn s.headers s.config.REMIND_EMAIL_BATCH_COL ≠ none) :
    remindEmailEnsuredState s = s := by
  simp only [remindEmailEnsuredState]
  rw [if_neg hb]

/-- What `saveUndoState` does to the stack, as a disjunction: the new
stack is the snapshot pushed onto the old stack, with at most the oldest
entry evicted past the depth bound. -/
theorem saveUndoState_undoStack_disj (s : DMState) :
    (saveUndoState s).undoStack = s.data :: s.undoStack ∨
    (saveUndoState s).undoStack = s.data :: s.undoStack.dropLast := by
  simp only [saveUndoState]
  by_cases hc : (s.data :: s.undoStack).length > maxUndoSteps
  · right
    rw [if_pos hc]
    cases hu : s.undoStack with
    | nil => rw [hu] at hc; simp [maxUndoSteps] at hc
    | cons b t => rfl
  · left
    rw [if_neg hc]

/-- C7 (amended): every successful markBatch call, on any channel, pushes
exactly one Undo Snapshot: the result's undo stack is one snapshot consed
onto the previous stack (with at most the oldest entry evicted past the
depth bound).  The snapshot has one entry per pre-call row — a full-store
snapshot, not one per row — and whenever the channel's configured columns
already resolve, so that the call creates no column, it is value-equal to
the pre-call Row Store.  When a column is created the snapshot is taken
after the creation (see the counterexample). -/
theorem mark_pushes_one_snapshot (limit : Int) (idxs : Option (List Nat))
    (s : DMState) :
    (∀ p ∈ markSmsBatch limit idxs s, p.1.success = true →
      ∃ snap, (p.2.undoStack = snap :: s.undoStack ∨
               p.2.undoStack = snap :: s.undoStack.dropLast) ∧
        snap.length = s.data.length ∧
        (findColumn s.headers s.config.CONTENT_COL ≠ none →
         findColumn s.headers s.config.BATCH_COL ≠ none → snap = s.data)) ∧
    (∀ p ∈ markEmailBatch limit idxs s, p.1.success = true →
      ∃ snap, (p.2.undoStack = snap :: s.undoStack ∨
               p.2.undoStack = snap :: s.undoStack.dropLast) ∧
        snap.length = s.data.length ∧
        (findColumn s.headers s.config.EMAIL_BATCH_COL ≠ none → snap = s.data)) ∧
    (∀ p ∈ markRemindSmsBatch limit idxs s, p.1.success = true →
      ∃ snap, (p.2.undoStack = snap :: s.undoStack ∨
               p.2.undoStack = snap :: s.undoStack.dropLast) ∧
        snap.length = s.data.length ∧
        (findColumn s.headers s.config.REMIND_SMS_BATCH_COL ≠ none → snap = s.data)) ∧
    (∀ p ∈ markRemindEmailBatch limit idxs s, p.1.success = true →
      ∃ snap, (p.2.undoStack = snap :: s.undoStack ∨
               p.2.undoStack = snap :: s.undoStack.dropLast) ∧
        snap.length = s.data.length ∧
        (findColumn s.headers s.config.REMIND_EMAIL_BATCH_COL ≠ none → snap = s.data)) := by
  refine ⟨?_, ?_, ?_, ?_⟩
  · intro p hp hsucc
    rw [Option.mem_def] at hp
    simp only [markSmsBatch] at hp
    split at hp
    · cases hp; simp [MarkResult.success] at hsucc
    · split at hp
      · cases hp
      · cases hp
        refine ⟨(smsEnsuredState s).data, ?_, smsEnsuredState_data_length s,
          fun hc hb => by rw [smsEnsuredState_eq_self s hc hb]⟩
        refine undoStack_ite_disj _ _ _ _ _ ?_ ?_ <;>
        · show (saveUndoState (smsEnsuredState s)).undoStack = _ ∨
            (saveUndoState (smsEnsuredState s)).undoStack = _
          rcases saveUndoState_undoStack_disj (smsEnsuredState s) with h | h
          · left
            rw [h, smsEnsuredState_undoStack]
          · right
            rw [h, smsEnsuredState_undoStack]
  · intro p hp hsucc
    rw [Option.mem_def] at hp
    simp only [markEmailBatch] at hp
    split at hp
    · cases hp; simp [MarkResult.success] at hsucc
    · split at hp
      · cases hp
      · cases hp
        refine ⟨(emailEnsuredState s).data, ?_, emailEnsuredState_data_length s,
          fun hb => by rw [emailEnsuredState_eq_self s hb]⟩
        refine undoStack_ite_disj _ _ _ _ _ ?_ ?_ <;>
        · show (saveUndoState (emailEnsuredState s)).undoStack = _ ∨
            (saveUndoState (emailEnsuredState s)).undoStack = _
          rcases saveUndoState_undoStack_disj (emailEnsuredState s) with h | h
          · left
            rw [h, emailEnsuredState_undoStack]
          · right
            rw [h, emailEnsuredState_undoStack]
  · intro p hp hsucc
    rw [Option.mem_def] at hp
    simp only [markRemindSmsBatch] at hp
    split at hp
    · cases hp; simp [MarkResult.success] at hsucc
    · split at hp
      · cases hp
      · cases hp
        refine ⟨(remindSmsEnsuredState s).data, ?_,
          remindSmsEnsuredState_data_length s,
          fun hb => by rw [remindSmsEnsuredState_eq_self s hb]⟩
        rcases saveUndoState_undoStack_disj (remindSmsEnsuredState s) with h | h
        · left
          show (saveUndoState (remindSmsEnsuredState s)).undoStack = _
          rw [h, remindSmsEnsuredState_undoStack]
        · right
          show (saveUndoState (remindSmsEnsuredState s)).undoStack = _
          rw [h, remindSmsEnsuredState_undoStack]
  · intro p hp hsucc
    rw [Option.mem_def] at hp
    simp only [markRemindEmailBatch] at hp
    split at hp
    · cases hp; simp [MarkResult.success] at hsucc
    · split at hp
      · cases hp
      · cases hp
        refine ⟨(remindEmailEnsuredState s).data, ?_,
          remindEmailEnsuredState_data_length s,
          fun hb => by rw [remindEmailEnsuredState_eq_self s hb]⟩
        rcases saveUndoState_undoStack_disj (remindEmailEnsuredState s) with h | h
        · left
          show (saveUndoState (remindEmailEnsuredState s)).undoStack = _
          rw [h, remindEmailEnsuredState_undoStack]
        · right
          show (saveUndoState (remindEmailEnsuredState s)).undoStack = _
          rw [h, remindEmailEnsuredState_undoStack]

/-- C7 counterexample: when the configured content/batch columns are
missing, `markSmsBatch` creates them first and only then snapshots, so the
pushed Undo Snapshot contains the two created columns and is not
value-equal to the pre-call Row Store — refuting the claim's
"including any column creation" parenthetical. -/
theorem snapshot_taken_after_column_creation :
    (markSmsBatch 1 none exMissingColsState).map (fun p => p.2.undoStack.head?)
      = some (some [[("A", CellValue.str "x"), ("SMS_Content", CellValue.str ""),
          ("SMS_Batch", CellValue.str "")]]) ∧
    ([[("A", CellValue.str "x"), ("SMS_Content", CellValue.str ""),
        ("SMS_Batch", CellValue.str "")]] : List Row) ≠ exMissingColsState.data := by
  constructor
  · decide
  · decide

/-- C7 witness: on a store whose columns all resolve, the successful call
leaves the undo stack holding exactly the pre-call rows as its single
snapshot. -/
theorem mark_pushes_one_snapshot_witness :
    ((markSmsBatch 1 none exFreshState).map fun p => p.2.undoStack)
      = some [exFreshState.data] := by
  cases hm : markSmsBatch 1 none exFreshState with
  | none => exact absurd (congrArg Option.isSome hm) (by decide)
  | some p =>
    obtain ⟨c1, -, -, -⟩ := mark_pushes_one_snapshot 1 none exFreshState
    have hsucc : p.1.success = true := by
      have hs : (markSmsBatch 1 none exFreshState).map (fun q => q.1.success)
          = some true := by decide
      rw [hm] at hs
      simpa using hs
    obtain ⟨snap, hdisj, -, hcols⟩ := c1 p (by rw [hm]; rfl) hsucc
    have hsnap : snap = exFreshState.data := hcols (by decide) (by decide)
    have hemp : exFreshState.undoStack = [] := rfl
    have hstack : p.2.undoStack = [exFreshState.data] := by
      rcases hdisj with h | h
      · rw [h, hemp, hsnap]
      · rw [h, hemp, hsnap]
        rfl
    rw [Option.map_some', hstack]

/-! ## C8 — deleteBatch clears exactly the matching rows -/

/-- The snapshot pushed by `saveUndoState` is always the top of the new
undo stack. -/
theorem saveUndoState_undoStack_head (s : DMState) :
    (saveUndoState s).undoStack.head? = some s.data := by
  rcases saveUndoState_undoStack_disj s with h | h <;> rw [h] <;> rfl

/-- C8: for each channel, when the batch column resolves, `deleteBatch`
succeeds, pushes exactly one Undo Snapshot (the pre-call rows), returns
the count of rows whose batch cell strictly equals the number (zero when
none match), removes the number from the channel's tracked set, clears
the batch cell — and for sms the content cell — of every matching row to
the empty string while leaving its other cells intact, and leaves every
non-matching row entirely unchanged. -/
theorem deleteBatch_clears_exactly_matches (n : Int) (s : DMState) :
    (∀ bc, findColumn s.headers s.config.BATCH_COL = some bc →
      (deleteSmsBatch n s).1.success = true ∧
      (deleteSmsBatch n s).1.deletedVal =
        (s.data.countP (fun row => row.get bc == CellValue.num n) : Int) ∧
      ((∀ row ∈ s.data, (row.get bc == CellValue.num n) = false) →
        (deleteSmsBatch n s).1.deletedVal = 0) ∧
      (deleteSmsBatch n s).2.smsBatches = s.smsBatches.erase n ∧
      ((deleteSmsBatch n s).2.undoStack = s.data :: s.undoStack ∨
       (deleteSmsBatch n s).2.undoStack = s.data :: s.undoStack.dropLast) ∧
      (∀ j : Nat, ∀ row, s.data[j]? = some row →
        ((row.get bc == CellValue.num n) = false →
          (deleteSmsBatch n s).2.data[j]? = some row) ∧
        ((row.get bc == CellValue.num n) = true →
          ∃ row', (deleteSmsBatch n s).2.data[j]? = some row' ∧
            row'.get bc = CellValue.str "" ∧
            (∀ cc, findColumn s.headers s.config.CONTENT_COL = some cc →
              row'.get cc = CellValue.str "") ∧
            (∀ k, k ≠ bc →
              (∀ cc, findColumn s.headers s.config.CONTENT_COL = some cc → k ≠ cc) →
              row'.get k = row.get k)))) ∧
    (∀ bc, findColumn s.headers s.config.EMAIL_BATCH_COL = some bc →
      (deleteEmailBatch n s).1.success = true ∧
      (deleteEmailBatch n s).1.deletedVal =
        (s.data.countP (fun row => row.get bc == CellValue.num n) : Int) ∧
      ((∀ row ∈ s.data, (row.get bc == CellValue.num n) = false) →
        (deleteEmailBatch n s).1.deletedVal = 0) ∧
      (deleteEmailBatch n s).2.emailBatches = s.emailBatches.erase n ∧
      ((deleteEmailBatch n s).2.undoStack = s.data :: s.undoStack ∨
       (deleteEmailBatch n s).2.undoStack = s.data :: s.undoStack.dropLast) ∧
      (∀ j : Nat, ∀ row, s.data[j]? = some row →
        ((row.get bc == CellValue.num n) = false →
          (deleteEmailBatch n s).2.data[j]? = some row) ∧
        ((row.get bc == CellValue.num n) = true →
          ∃ row', (deleteEmailBatch n s).2.data[j]? = some row' ∧
            row'.get bc = CellValue.str "" ∧
            (∀ k, k ≠ bc → row'.get k = row.get k)))) := by
  constructor
  · intro bc hbc
    simp only [deleteSmsBatch, hbc]
    refine ⟨rfl, rfl, ?_, rfl, ?_, ?_⟩
    · intro hnone
      simp only [DeleteResult.deletedVal]
      norm_cast
      exact List.countP_eq_zero.2 (by simpa using hnone)
    · exact saveUndoState_undoStack_disj s
    · intro j row hrow
      constructor
      · intro hne
        simp only [List.getElem?_map, saveUndoState_data, hrow,
          Option.map_some']
        rw [if_neg (by simp [hne])]
      · intro heq
        refine ⟨(match findColumn s.headers s.config.CONTENT_COL with
          | some cc => (row.set bc (CellValue.str "")).set cc (CellValue.str "")
          | none => row.set bc (CellValue.str "")), ?_, ?_, ?_, ?_⟩
        · simp only [List.getElem?_map, saveUndoState_data, hrow,
            Option.map_some']
          rw [if_pos (by simp [heq])]
        · cases hcc : findColumn s.headers s.config.CONTENT_COL with
          | none =>
            simp only [hcc]
            exact Row.get_set_self row bc (CellValue.str "")
          | some cc =>
            simp only [hcc]
            by_cases hk : bc = cc
            · rw [hk, Row.get_set_self]
            · rw [Row.get_set_ne _ cc bc _ hk, Row.get_set_self]
        · intro cc hcc
          simp only [hcc]
          exact Row.get_set_self _ cc (CellValue.str "")
        · intro k hk hkcc
          cases hcc : findColumn s.headers s.config.CONTENT_COL with
          | none =>
            simp only [hcc]
            exact Row.get_set_ne row bc k _ hk
          | some cc =>
            simp only [hcc]
            rw [Row.get_set_ne _ cc k _ (hkcc cc hcc),
              Row.get_set_ne row bc k _ hk]
  · intro bc hbc
    simp only [deleteEmailBatch, hbc]
    refine ⟨rfl, rfl, ?_, rfl, ?_, ?_⟩
    · intro hnone
      simp only [DeleteResult.deletedVal]
      norm_cast
      exact List.countP_eq_zero.2 (by simpa using hnone)
    · exact saveUndoState_undoStack_disj s
    · intro j row hrow
      constructor
      · intro hne
        simp only [List.getElem?_map, saveUndoState_data, hrow,
          Option.map_some']
        rw [if_neg (by simp [hne])]
      · intro heq
        refine ⟨row.set bc (CellValue.str ""), ?_, ?_, ?_⟩
        · simp only [List.getElem?_map, saveUndoState_data, hrow,
            Option.map_some']
          rw [if_pos (by simp [heq])]
        · exact Row.get_set_self row bc (CellValue.str "")
        · intro k hk
          exact Row.get_set_ne row bc k _ hk

/-- C8 witness: spec Scenario D — deleting sms batch 1 on a store where
two rows hold `SMS_Batch = 1` succeeds, reports two cleared rows, and
drops 1 from the tracked set; the email analogue deletes zero matching
rows and still succeeds. -/
theorem deleteBatch_clears_exactly_matches_witness :
    (findColumn exMarkedState.headers exMarkedState.config.BATCH_COL
      = some "SMS_Batch" ∧
     (deleteSmsBatch 1 exMarkedState).1.success = true ∧
     (deleteSmsBatch 1 exMarkedState).1.deletedVal = 2 ∧
     (deleteSmsBatch 1 exMarkedState).2.smsBatches
       = exMarkedState.smsBatches.erase 1) ∧
    (findColumn exMarkedState.headers exMarkedState.config.EMAIL_BATCH_COL
      = some "Email_Batch" ∧
     (deleteEmailBatch 9 exMarkedState).1.success = true ∧
     (deleteEmailBatch 9 exMarkedState).1.deletedVal = 0) := by
  obtain ⟨hsms, hemail⟩ := deleteBatch_clears_exactly_matches 1 exMarkedState
  obtain ⟨hs1, hs2, -, hs4, -, -⟩ := hsms "SMS_Batch" (by decide)
  obtain ⟨-, he⟩ := deleteBatch_clears_exactly_matches 9 exMarkedState
  obtain ⟨he1, -, he3, -, -, -⟩ := he "Email_Batch" (by decide)
  refine ⟨⟨by decide, hs1, ?_, hs4⟩, ⟨by decide, he1, he3 (by decide)⟩⟩
  rw [hs2]
  decide

/-! ## C2 — batch numbers increment by exactly one

Supporting lemmas about the next-number computation, the marking loop, and
the remind channels' column-maximum fold. -/

theorem Row.set_set : ∀ (r : Row) (k : String) (v w : CellValue),
    (Row.set r k v).set k w = Row.set r k w
  | [], k, v, w => by simp [Row.set]
  | p :: rest, k, v, w => by
    cases hpk : (p.1 == k) with
    | true => simp [Row.set, hpk]
    | false =>
      have ih := Row.set_set rest k v w
      simp [Row.set, hpk, ih]

theorem jsOrString_some_ne (x fb : String) (hx : x ≠ "") :
    jsOrString (some x) fb = x := by
  simp [jsOrString, hx]

/-- The marking loop never changes the number of rows. -/
theorem markLoop_length (elig : Row → Bool) (write : Row → Row) (limit : Int) :
    ∀ (idxs : List Nat) (data : List Row) (picked : Int)
      (out : List Row × Int),
      markLoop elig write limit idxs data picked = some out →
      out.1.length = data.length
  | [], data, picked, out, h => by
    cases h
    rfl
  | idx :: rest, data, picked, out, h => by
    unfold markLoop at h
    split at h
    · cases h
      rfl
    · split at h
      · cases h
      · split at h
        · have := markLoop_length elig write limit rest _ _ _ h
          simpa using this
        · exact markLoop_length elig write limit rest _ _ _ h

/-- The spec's next-number function advances by exactly one when its own
result is inserted into the known set. -/
theorem specNext_insert (t : Finset Int) :
    specNextBatchNumber (insert (specNextBatchNumber t) t)
      = specNextBatchNumber t + 1 := by
  unfold specNextBatchNumber
  by_cases h : t.Nonempty
  · rw [dif_pos h, dif_pos ((t.insert_nonempty _))]
    rw [Finset.max'_insert _ _ h]
    rw [max_eq_right (by linarith)]
  · have ht : t = ∅ := Finset.not_nonempty_iff_eq_empty.1 h
    subst ht
    rw [dif_neg h, dif_pos (Finset.insert_nonempty 1 ∅)]
    simp

/-- A non-truthy cell can only `parseInt` to zero. -/
theorem parse_of_not_truthy (v : CellValue) (b : Int)
    (hv : v.jsTruthy = false) (hp : jsParseIntCV v = some b) : b = 0 := by
  cases v with
  | str s =>
    have hs : s = "" := by simpa [CellValue.jsTruthy] using hv
    rw [hs] at hp
    simp [jsParseIntCV, jsParseIntStr, jsTrimList, parseLeadingNat] at hp
  | num n =>
    have hn : n = 0 := by simpa [CellValue.jsTruthy] using hv
    simp [jsParseIntCV, hn] at hp
    omega
  | null => simp [jsParseIntCV] at hp
  | undefined => simp [jsParseIntCV] at hp

/-- One step of the remind `maxBatch` fold. -/
def maxBatchStep (col : String) (maxBatch : Int) (row : Row) : Int :=
  match jsParseIntCV (row.get col) with
  | some val => if val > maxBatch then val else maxBatch
  | none => maxBatch

theorem columnMaxInt_eq_foldl (col : String) (data : List Row) :
    columnMaxInt col data = data.foldl (maxBatchStep col) 0 := rfl

theorem maxBatchStep_le (col : String) (a b : Int) (row : Row)
    (hab : a ≤ b)
    (hrow : ∀ val, jsParseIntCV (row.get col) = some val → val ≤ b) :
    maxBatchStep col a row ≤ b := by
  unfold maxBatchStep
  split
  · split
    · exact hrow _ (by assumption)
    · exact hab
  · exact hab

theorem le_maxBatchStep (col : String) (a : Int) (row : Row) :
    a ≤ maxBatchStep col a row := by
  unfold maxBatchStep
  split
  · split
    · omega
    · exact le_refl a
  · exact le_refl a

theorem foldl_maxBatch_le (col : String) (b : Int) :
    ∀ (data : List Row) (a : Int), a ≤ b →
      (∀ row ∈ data, ∀ val, jsParseIntCV (row.get col) = some val → val ≤ b) →
      data.foldl (maxBatchStep col) a ≤ b
  | [], a, ha, _ => ha
  | row :: data, a, ha, hall => by
    rw [List.foldl_cons]
    exact foldl_maxBatch_le col b data _
      (maxBatchStep_le col a b row ha (hall row (by simp)))
      (fun r hr => hall r (by simp [hr]))

theorem le_foldl_maxBatch (col : String) :
    ∀ (data : List Row) (a : Int), a ≤ data.foldl (maxBatchStep col) a
  | [], a => le_refl a
  | row :: data, a => by
    rw [List.foldl_cons]
    exact le_trans (le_maxBatchStep col a row) (le_foldl_maxBatch col data _)

theorem foldl_maxBatch_mem_ge (col : String) :
    ∀ (data : List Row) (a : Int) (row : Row), row ∈ data →
      ∀ val, jsParseIntCV (row.get col) = some val →
        val ≤ data.foldl (maxBatchStep col) a
  | [], _, _, hmem, _, _ => by cases hmem
  | r :: data, a, row, hmem, val, hval => by
    rw [List.foldl_cons]
    rcases List.mem_cons.1 hmem with h | h
    · subst h
      refine le_trans ?_ (le_foldl_maxBatch col data _)
      simp only [maxBatchStep, hval]
      split
      · exact le_refl val
      · omega
    · exact foldl_maxBatch_mem_ge col data _ row h val hval

theorem columnMaxInt_nonneg (col : String) (data : List Row) :
    0 ≤ columnMaxInt col data :=
  le_foldl_maxBatch col data 0

theorem columnMaxInt_eq_of (col : String) (data : List Row) (b : Int)
    (hb0 : 0 ≤ b)
    (hle : ∀ row ∈ data, ∀ val, jsParseIntCV (row.get col) = some val → val ≤ b)
    (hex : ∃ row ∈ data, jsParseIntCV (row.get col) = some b) :
    columnMaxInt col data = b := by
  obtain ⟨row, hmem, hval⟩ := hex
  exact le_antisymm (foldl_maxBatch_le col b data 0 hb0 hle)
    (foldl_maxBatch_mem_ge col data 0 row hmem b hval)

/-- One step of the `detectBatches`-style fold for a resolved column. -/
def collectStep (c : String) (acc : Finset Int) (row : Row) : Finset Int :=
  let v := row.get c
  if v.jsTruthy then
    match jsParseIntCV v with
    | some b => if 0 < b then insert b acc else acc
    | none => acc
  else acc

theorem collectBatches_some_eq_foldl (c : String) (data : List Row) :
    collectBatches (some c) data = data.foldl (collectStep c) ∅ := rfl

/-- The invariant tying the remind `maxBatch` fold to the set of positive
parsed column values: all collected numbers are positive and bounded by
the running maximum, and a positive running maximum is itself collected. -/
theorem collect_max_inv (c : String) :
    ∀ (data : List Row) (a : Int) (t : Finset Int), 0 ≤ a →
      (∀ x ∈ t, 0 < x ∧ x ≤ a) → (0 < a → a ∈ t) →
      (∀ x ∈ data.foldl (collectStep c) t, 0 < x ∧
        x ≤ data.foldl (maxBatchStep c) a) ∧
      (0 < data.foldl (maxBatchStep c) a →
        data.foldl (maxBatchStep c) a ∈ data.foldl (collectStep c) t)
  | [], a, t, _, hall, hmem => ⟨hall, hmem⟩
  | row :: data, a, t, ha, hall, hmem => by
    rw [List.foldl_cons, List.foldl_cons]
    have ha1 : 0 ≤ maxBatchStep c a row :=
      le_trans ha (le_maxBatchStep c a row)
    refine collect_max_inv c data _ _ ha1 ?_ ?_
    · intro x hx
      simp only [collectStep] at hx
      cases hv : (row.get c).jsTruthy with
      | false =>
        rw [hv] at hx
        simp only [Bool.false_eq_true, if_false] at hx
        obtain ⟨h1, h2⟩ := hall x hx
        exact ⟨h1, le_trans h2 (le_maxBatchStep c a row)⟩
      | true =>
        rw [hv] at hx
        rw [if_pos rfl] at hx
        cases hp : jsParseIntCV (row.get c) with
        | none =>
          rw [hp] at hx
          obtain ⟨h1, h2⟩ := hall x hx
          exact ⟨h1, le_trans h2 (le_maxBatchStep c a row)⟩
        | some b =>
          rw [hp] at hx
          dsimp only at hx
          by_cases hb : 0 < b
          · rw [if_pos hb] at hx
            rcases Finset.mem_insert.1 hx with h | h
            · subst h
              refine ⟨hb, ?_⟩
              simp only [maxBatchStep, hp]
              split
              · exact le_refl x
              · omega
            · obtain ⟨h1, h2⟩ := hall x h
              exact ⟨h1, le_trans h2 (le_maxBatchStep c a row)⟩
          · rw [if_neg hb] at hx
            obtain ⟨h1, h2⟩ := hall x hx
            exact ⟨h1, le_trans h2 (le_maxBatchStep c a row)⟩
    · intro hpos
      cases hp : jsParseIntCV (row.get c) with
      | none =>
        simp only [maxBatchStep, hp] at hpos ⊢
        simp only [collectStep, hp]
        have hat := hmem hpos
        split
        · exact hat
        · exact hat
      | some b =>
        simp only [maxBatchStep, hp] at hpos ⊢
        simp only [collectStep, hp]
        by_cases hba : b > a
        · rw [if_pos hba] at hpos ⊢
          cases hv : (row.get c).jsTruthy with
          | false => exact absurd (parse_of_not_truthy _ b hv hp) (by omega)
          | true =>
            rw [if_pos rfl, if_pos hpos]
            exact Finset.mem_insert_self b t
        · rw [if_neg hba] at hpos ⊢
          have hat : a ∈ t := hmem hpos
          split
          · split
            · exact Finset.mem_insert_of_mem hat
            · exact hat
          · exact hat


/-- The spec's next-number computation over the set of positive parsed
column values coincides with the remind channels' `maxBatch + 1`
computation. -/
theorem specNext_collect (c : String) (data : List Row) :
    specNextBatchNumber (collectBatches (some c) data)
      = columnMaxInt c data + 1 := by
  obtain ⟨hmem_all, hattain⟩ :=
    collect_max_inv c data 0 ∅ (le_refl 0) (by simp) (by simp)
  rw [collectBatches_some_eq_foldl, columnMaxInt_eq_foldl]
  have hM0 : (0 : Int) ≤ data.foldl (maxBatchStep c) 0 :=
    le_foldl_maxBatch c data 0
  unfold specNextBatchNumber
  by_cases hT : (data.foldl (collectStep c) ∅).Nonempty
  · rw [dif_pos hT]
    obtain ⟨x, hx⟩ := hT
    have hxb := hmem_all x hx
    have hpos : 0 < data.foldl (maxBatchStep c) 0 :=
      lt_of_lt_of_le hxb.1 hxb.2
    have h1 : Finset.max' _ ⟨x, hx⟩ ≤ data.foldl (maxBatchStep c) 0 :=
      Finset.max'_le _ _ _ (fun y hy => (hmem_all y hy).2)
    have h2 : data.foldl (maxBatchStep c) 0 ≤ Finset.max' _ ⟨x, hx⟩ :=
      Finset.le_max' _ _ (hattain hpos)
    omega
  · rw [dif_neg hT]
    have hM : data.foldl (maxBatchStep c) 0 = 0 := by
      by_contra hne
      exact hT ⟨_, hattain (lt_of_le_of_ne hM0 (Ne.symm hne))⟩
    rw [hM]
    rfl

/-- Rows after a marking loop whose write sets one column to a constant:
every row is either untouched or its column was overwritten, and whenever
the counter advanced, some written row remains in the output. -/
theorem markLoop_setconst (c : String) (b : Int) (elig : Row → Bool)
    (limit : Int) :
    ∀ (idxs : List Nat) (data : List Row) (picked : Int)
      (out : List Row × Int),
      markLoop elig (fun row => row.set c (CellValue.num b)) limit idxs
        data picked = some out →
      (∀ j : Nat, out.1.get? j = data.get? j ∨
        ∃ row, data.get? j = some row ∧
          out.1.get? j = some (row.set c (CellValue.num b))) ∧
      (picked < out.2 → ∃ j row, data.get? j = some row ∧
        out.1.get? j = some (row.set c (CellValue.num b)))
  | [], data, picked, out, h => by
    cases h
    exact ⟨fun j => Or.inl rfl, fun hc => absurd hc (lt_irrefl picked)⟩
  | idx :: rest, data, picked, out, h => by
    unfold markLoop at h
    split at h
    · cases h
      exact ⟨fun j => Or.inl rfl, fun hc => absurd hc (lt_irrefl picked)⟩
    · cases hg : data.get? idx with
      | none => rw [hg] at h; cases h
      | some row =>
        rw [hg] at h
        dsimp only at h
        have hidx : idx < data.length := List.get?_eq_some.1 hg |>.1
        split at h
        · have ih := markLoop_setconst c b elig limit rest _ _ _ h
          have hset : ∀ j : Nat, j < data.length →
              (data.set idx (row.set c (CellValue.num b))).get? j =
                if idx = j then some (row.set c (CellValue.num b))
                else data.get? j :=
            fun j hj => List.get?_set_of_lt _ _ hj
          have hsetidx :
              (data.set idx (row.set c (CellValue.num b))).get? idx =
                some (row.set c (CellValue.num b)) := by
            rw [hset idx hidx, if_pos rfl]
          constructor
          · intro j
            by_cases hji : j = idx
            · subst hji
              rcases ih.1 j with hcase | ⟨row1, hrow1, hout⟩
              · right
                exact ⟨row, hg, by rw [hcase, hsetidx]⟩
              · right
                refine ⟨row, hg, ?_⟩
                rw [hsetidx] at hrow1
                rw [hout, (Option.some.inj hrow1).symm, Row.set_set]
            · by_cases hj : j < data.length
              · have hne : (data.set idx (row.set c (CellValue.num b))).get? j
                    = data.get? j := by
                  rw [hset j hj, if_neg (fun hh => hji hh.symm)]
                rcases ih.1 j with hcase | ⟨row1, hrow1, hout⟩
                · left
                  rw [hcase, hne]
                · right
                  rw [hne] at hrow1
                  exact ⟨row1, hrow1, hout⟩
              · have hout1 : data.get? j = none :=
                  List.get?_eq_none.2 (le_of_not_lt hj)
                have hout2 : (data.set idx (row.set c (CellValue.num b))).get? j
                    = none :=
                  List.get?_eq_none.2 (by simpa using le_of_not_lt hj)
                rcases ih.1 j with hcase | ⟨row1, hrow1, hout⟩
                · left
                  rw [hcase, hout2, hout1]
                · rw [hout2] at hrow1
                  cases hrow1
          · intro _
            rcases ih.1 idx with hcase | ⟨row1, hrow1, hout⟩
            · exact ⟨idx, row, hg, by rw [hcase, hsetidx]⟩
            · refine ⟨idx, row, hg, ?_⟩
              rw [hsetidx] at hrow1
              rw [hout, (Option.some.inj hrow1).symm, Row.set_set]
        · exact markLoop_setconst c b elig limit rest _ _ _ h

/-- Projection helper for `ite` states: data. -/
theorem data_ite (c : Prop) [Decidable c] (a b : DMState) (d : List Row)
    (ha : a.data = d) (hb : b.data = d) : (if c then a else b).data = d := by
  split
  · exact ha
  · exact hb

theorem getNext_sms_ensured (S : DMState) :
    getNextSmsBatch (smsEnsuredState S) = specNextBatchNumber S.smsBatches := by
  show specNextBatchNumber (smsEnsuredState S).smsBatches = _
  rw [smsEnsuredState_smsBatches]

theorem getNext_email_ensured (S : DMState) :
    getNextEmailBatch (emailEnsuredState S)
      = specNextBatchNumber S.emailBatches := by
  show specNextBatchNumber (emailEnsuredState S).emailBatches = _
  rw [emailEnsuredState_emailBatches]

/-- Inversion of a successful `markSmsBatch` run: the number used, the
row-count preservation, and the tracked-set update. -/
theorem markSms_inversion (limit : Int) (idxs : Option (List Nat))
    (S : DMState) (hne : S.data.length ≠ 0) (r : MarkResult) (S2 : DMState)
    (h : markSmsBatch limit idxs S = some (r, S2)) :
    r.newBatchVal = specNextBatchNumber S.smsBatches ∧
    S2.data.length = S.data.length ∧
    (1 ≤ r.pickedVal →
      S2.smsBatches = insert (specNextBatchNumber S.smsBatches) S.smsBatches) := by
  simp only [markSmsBatch] at h
  rw [if_neg hne] at h
  split at h
  · cases h
  · rename_i data' picked heq
    cases h
    refine ⟨getNext_sms_ensured S, ?_, ?_⟩
    · rw [data_ite _ _ _ data' rfl rfl]
      have := markLoop_length _ _ _ _ _ _ _ heq
      simpa using this
    · intro hp
      have hp' : 0 < picked := by simpa [MarkResult.pickedVal] using hp
      rw [if_pos hp']
      show insert (getNextSmsBatch (smsEnsuredState S))
        ((saveUndoState (smsEnsuredState S)).smsBatches) = _
      rw [getNext_sms_ensured, saveUndoState_smsBatches, smsEnsuredState_smsBatches]

/-- Inversion of a successful `markEmailBatch` run. -/
theorem markEmail_inversion (limit : Int) (idxs : Option (List Nat))
    (S : DMState) (hne : S.data.length ≠ 0) (r : MarkResult) (S2 : DMState)
    (h : markEmailBatch limit idxs S = some (r, S2)) :
    r.newBatchVal = specNextBatchNumber S.emailBatches ∧
    S2.data.length = S.data.length ∧
    (1 ≤ r.pickedVal →
      S2.emailBatches
        = insert (specNextBatchNumber S.emailBatches) S.emailBatches) := by
  simp only [markEmailBatch] at h
  rw [if_neg hne] at h
  split at h
  · cases h
  · rename_i data' picked heq
    cases h
    refine ⟨getNext_email_ensured S, ?_, ?_⟩
    · rw [data_ite _ _ _ data' rfl rfl]
      have := markLoop_length _ _ _ _ _ _ _ heq
      simpa using this
    · intro hp
      have hp' : 0 < picked := by simpa [MarkResult.pickedVal] using hp
      rw [if_pos hp']
      show insert (getNextEmailBatch (emailEnsuredState S))
        ((saveUndoState (emailEnsuredState S)).emailBatches) = _
      rw [getNext_email_ensured, saveUndoState_emailBatches,
        emailEnsuredState_emailBatches]

/-- Inversion of a successful `markRemindSmsBatch` run on a state whose
remind column resolves: the number used is the column maximum plus one,
and after at least one pick the column maximum becomes that number. -/
theorem markRemindSms_inversion (limit : Int) (idxs : Option (List Nat))
    (S : DMState) (rc : String)
    (hrc : findColumn S.headers S.config.REMIND_SMS_BATCH_COL = some rc)
    (hrcne : rc ≠ "") (hne : S.data.length ≠ 0) (r : MarkResult)
    (S2 : DMState) (h : markRemindSmsBatch limit idxs S = some (r, S2)) :
    r.newBatchVal = columnMaxInt rc S.data + 1 ∧
    S2.data.length = S.data.length ∧
    S2.headers = S.headers ∧ S2.config = S.config ∧
    (1 ≤ r.pickedVal →
      columnMaxInt rc S2.data = columnMaxInt rc S.data + 1) := by
  have hens : remindSmsEnsuredState S = S :=
    remindSmsEnsuredState_eq_self S (by rw [hrc]; exact fun hh => Option.noConfusion hh)
  simp only [markRemindSmsBatch] at h
  rw [if_neg hne, hens, hrc, jsOrString_some_ne rc _ hrcne] at h
  split at h
  · cases h
  · rename_i data' picked heq
    cases h
    refine ⟨rfl, ?_, rfl, rfl, ?_⟩
    · show data'.length = S.data.length
      have := markLoop_length _ _ _ _ _ _ _ heq
      simpa using this
    · intro hp
      have hp' : 0 < picked := by simpa [MarkResult.pickedVal] using hp
      obtain ⟨hall, hex0⟩ :=
        markLoop_setconst rc (columnMaxInt rc S.data + 1) (eligRemind rc)
          limit _ _ _ _ heq
      obtain ⟨j0, row0, hrow0, hwrote⟩ := hex0 hp'
      have hb0 : (0 : Int) < columnMaxInt rc S.data + 1 := by
        have := columnMaxInt_nonneg rc S.data
        omega
      show columnMaxInt rc data' = _
      refine columnMaxInt_eq_of rc data' _ (le_of_lt hb0) ?_ ?_
      · intro row hmem val hval
        obtain ⟨j, hj⟩ := List.mem_iff_get?.1 hmem
        rcases hall j with hcase | ⟨rowo, hro, hwr⟩
        · rw [hj] at hcase
          have hmem2 : row ∈ S.data := List.get?_mem hcase.symm
          have := foldl_maxBatch_mem_ge rc S.data 0 row hmem2 val hval
          rw [← columnMaxInt_eq_foldl] at this
          omega
        · rw [hj] at hwr
          have hrw : row = rowo.set rc (CellValue.num (columnMaxInt rc S.data + 1)) :=
            Option.some.inj hwr
          rw [hrw, Row.get_set_self] at hval
          simp only [jsParseIntCV, Option.some.injEq] at hval
          omega
      · refine ⟨row0.set rc (CellValue.num (columnMaxInt rc S.data + 1)),
          List.get?_mem hwrote, ?_⟩
        rw [Row.get_set_self]
        rfl

/-- Inversion of a successful `markRemindEmailBatch` run. -/
theorem markRemindEmail_inversion (limit : Int) (idxs : Option (List Nat))
    (S : DMState) (rc : String)
    (hrc : findColumn S.headers S.config.REMIND_EMAIL_BATCH_COL = some rc)
    (hrcne : rc ≠ "") (hne : S.data.length ≠ 0) (r : MarkResult)
    (S2 : DMState) (h : markRemindEmailBatch limit idxs S = some (r, S2)) :
    r.newBatchVal = columnMaxInt rc S.data + 1 ∧
    S2.data.length = S.data.length ∧
    S2.headers = S.headers ∧ S2.config = S.config ∧
    (1 ≤ r.pickedVal →
      columnMaxInt rc S2.data = columnMaxInt rc S.data + 1) := by
  have hens : remindEmailEnsuredState S = S :=
    remindEmailEnsuredState_eq_self S (by rw [hrc]; exact fun hh => Option.noConfusion hh)
  simp only [markRemindEmailBatch] at h
  rw [if_neg hne, hens, hrc, jsOrString_some_ne rc _ hrcne] at h
  split at h
  · cases h
  · rename_i data' picked heq
    cases h
    refine ⟨rfl, ?_, rfl, rfl, ?_⟩
    · show data'.length = S.data.length
      have := markLoop_length _ _ _ _ _ _ _ heq
      simpa using this
    · intro hp
      have hp' : 0 < picked := by simpa [MarkResult.pickedVal] using hp
      obtain ⟨hall, hex0⟩ :=
        markLoop_setconst rc (columnMaxInt rc S.data + 1) (eligRemind rc)
          limit _ _ _ _ heq
      obtain ⟨j0, row0, hrow0, hwrote⟩ := hex0 hp'
      have hb0 : (0 : Int) < columnMaxInt rc S.data + 1 := by
        have := columnMaxInt_nonneg rc S.data
        omega
      show columnMaxInt rc data' = _
      refine columnMaxInt_eq_of rc data' _ (le_of_lt hb0) ?_ ?_
      · intro row hmem val hval
        obtain ⟨j, hj⟩ := List.mem_iff_get?.1 hmem
        rcases hall j with hcase | ⟨rowo, hro, hwr⟩
        · rw [hj] at hcase
          have hmem2 : row ∈ S.data := List.get?_mem hcase.symm
          have := foldl_maxBatch_mem_ge rc S.data 0 row hmem2 val hval
          rw [← columnMaxInt_eq_foldl] at this
          omega
        · rw [hj] at hwr
          have hrw : row = rowo.set rc (CellValue.num (columnMaxInt rc S.data + 1)) :=
            Option.some.inj hwr
          rw [hrw, Row.get_set_self] at hval
          simp only [jsParseIntCV, Option.some.injEq] at hval
          omega
      · refine ⟨row0.set rc (CellValue.num (columnMaxInt rc S.data + 1)),
          List.get?_mem hwrote, ?_⟩
        rw [Row.get_set_self]
        rfl

/-- C2: for every channel the batch number used by a markBatch call is
`max(existing batch numbers) + 1`, defaulting to 1 when none exist — for
sms/email over the tracked known-batches set, for the remind channels over
the set of positive integers parsed from the batch column — and two
successive calls, the first picking at least one row, use numbers that
increase by exactly 1 (so k successive such calls increase by 1 each
time).  The remind-channel statements assume the configured column
resolves to a (non-empty) header, as it does after the column-ensuring
step of any earlier call. -/
theorem batch_numbering_increments (limit limit' : Int)
    (idxs idxs' : Option (List Nat)) (s : DMState) :
    (∀ r s1 r2 s2, markSmsBatch limit idxs s = some (r, s1) →
      1 ≤ r.pickedVal → markSmsBatch limit' idxs' s1 = some (r2, s2) →
      r.newBatchVal = specNextBatchNumber s.smsBatches ∧
      r2.newBatchVal = r.newBatchVal + 1) ∧
    (∀ r s1 r2 s2, markEmailBatch limit idxs s = some (r, s1) →
      1 ≤ r.pickedVal → markEmailBatch limit' idxs' s1 = some (r2, s2) →
      r.newBatchVal = specNextBatchNumber s.emailBatches ∧
      r2.newBatchVal = r.newBatchVal + 1) ∧
    (∀ rc, findColumn s.headers s.config.REMIND_SMS_BATCH_COL = some rc →
      rc ≠ "" →
      ∀ r s1 r2 s2, markRemindSmsBatch limit idxs s = some (r, s1) →
        1 ≤ r.pickedVal →
        markRemindSmsBatch limit' idxs' s1 = some (r2, s2) →
        r.newBatchVal = specNextBatchNumber (collectBatches (some rc) s.data) ∧
        r2.newBatchVal = r.newBatchVal + 1) ∧
    (∀ rc, findColumn s.headers s.config.REMIND_EMAIL_BATCH_COL = some rc →
      rc ≠ "" →
      ∀ r s1 r2 s2, markRemindEmailBatch limit idxs s = some (r, s1) →
        1 ≤ r.pickedVal →
        markRemindEmailBatch limit' idxs' s1 = some (r2, s2) →
        r.newBatchVal = specNextBatchNumber (collectBatches (some rc) s.data) ∧
        r2.newBatchVal = r.newBatchVal + 1) := by
  refine ⟨?_, ?_, ?_, ?_⟩
  · intro r s1 r2 s2 h hp h2
    have hne : s.data.length ≠ 0 := by
      intro h0
      simp [markSmsBatch, h0] at h
      rw [← h.1] at hp
      simp [MarkResult.pickedVal] at hp
    obtain ⟨hnb, hlen, hins⟩ := markSms_inversion limit idxs s hne r s1 h
    have hne2 : s1.data.length ≠ 0 := by
      rw [hlen]
      exact hne
    obtain ⟨hnb2, -, -⟩ := markSms_inversion limit' idxs' s1 hne2 r2 s2 h2
    refine ⟨hnb, ?_⟩
    rw [hnb2, hins hp, specNext_insert, hnb]
  · intro r s1 r2 s2 h hp h2
    have hne : s.data.length ≠ 0 := by
      intro h0
      simp [markEmailBatch, h0] at h
      rw [← h.1] at hp
      simp [MarkResult.pickedVal] at hp
    obtain ⟨hnb, hlen, hins⟩ := markEmail_inversion limit idxs s hne r s1 h
    have hne2 : s1.data.length ≠ 0 := by
      rw [hlen]
      exact hne
    obtain ⟨hnb2, -, -⟩ := markEmail_inversion limit' idxs' s1 hne2 r2 s2 h2
    refine ⟨hnb, ?_⟩
    rw [hnb2, hins hp, specNext_insert, hnb]
  · intro rc hrc hrcne r s1 r2 s2 h hp h2
    have hne : s.data.length ≠ 0 := by
      intro h0
      simp [markRemindSmsBatch, h0] at h
      rw [← h.1] at hp
      simp [MarkResult.pickedVal] at hp
    obtain ⟨hnb, hlen, hhead, hconf, hcolmax⟩ :=
      markRemindSms_inversion limit idxs s rc hrc hrcne hne r s1 h
    have hrc2 : findColumn s1.headers s1.config.REMIND_SMS_BATCH_COL = some rc := by
      rw [hhead, hconf]
      exact hrc
    have hne2 : s1.data.length ≠ 0 := by
      rw [hlen]
      exact hne
    obtain ⟨hnb2, -, -, -, -⟩ :=
      markRemindSms_inversion limit' idxs' s1 rc hrc2 hrcne hne2 r2 s2 h2
    constructor
    · rw [hnb, specNext_collect]
    · rw [hnb2, hcolmax hp, hnb]
  · intro rc hrc hrcne r s1 r2 s2 h hp h2
    have hne : s.data.length ≠ 0 := by
      intro h0
      simp [markRemindEmailBatch, h0] at h
      rw [← h.1] at hp
      simp [MarkResult.pickedVal] at hp
    obtain ⟨hnb, hlen, hhead, hconf, hcolmax⟩ :=
      markRemindEmail_inversion limit idxs s rc hrc hrcne hne r s1 h
    have hrc2 : findColumn s1.headers s1.config.REMIND_EMAIL_BATCH_COL = some rc := by
      rw [hhead, hconf]
      exact hrc
    have hne2 : s1.data.length ≠ 0 := by
      rw [hlen]
      exact hne
    obtain ⟨hnb2, -, -, -, -⟩ :=
      markRemindEmail_inversion limit' idxs' s1 rc hrc2 hrcne hne2 r2 s2 h2
    constructor
    · rw [hnb, specNext_collect]
    · rw [hnb2, hcolmax hp, hnb]

/-- C2 witness: on the three-row store, two successive sms markings use
numbers 1 then 2 (Scenario A/B), and two successive remind-sms markings
likewise. -/
theorem batch_numbering_increments_witness :
    (((markSmsBatch 2 none exFreshState).bind
        (fun p => (markSmsBatch 5 none p.2).map
          (fun q => (p.1.newBatchVal, q.1.newBatchVal)))) = some (1, 2)) ∧
    (((markRemindSmsBatch 1 none exFreshState).bind
        (fun p => (markRemindSmsBatch 1 none p.2).map
          (fun q => (p.1.newBatchVal, q.1.newBatchVal)))) = some (1, 2)) := by
  constructor
  · cases hm1 : markSmsBatch 2 none exFreshState with
    | none => exact absurd (congrArg Option.isSome hm1) (by decide)
    | some p =>
      have hp1 : p.1.pickedVal = 2 := by
        have hx : (markSmsBatch 2 none exFreshState).map (fun q => q.1.pickedVal)
            = some 2 := by decide
        rw [hm1] at hx
        simpa using hx
      have hsome2 : (markSmsBatch 5 none p.2).isSome = true := by
        have hx : ((markSmsBatch 2 none exFreshState).bind
            (fun q => markSmsBatch 5 none q.2)).isSome = true := by decide
        rw [hm1] at hx
        simpa using hx
      cases hm2 : markSmsBatch 5 none p.2 with
      | none => rw [hm2] at hsome2; cases hsome2
      | some q =>
        obtain ⟨ha, hb⟩ := (batch_numbering_increments 2 5 none none exFreshState).1
          p.1 p.2 q.1 q.2 (by rw [hm1]) (by rw [hp1]; omega) (by rw [hm2])
        have hnb1 : p.1.newBatchVal = 1 := by
          rw [ha]
          decide
        simp [hm2, hb, hnb1]
  · cases hm1 : markRemindSmsBatch 1 none exFreshState with
    | none => exact absurd (congrArg Option.isSome hm1) (by decide)
    | some p =>
      have hp1 : p.1.pickedVal = 1 := by
        have hx : (markRemindSmsBatch 1 none exFreshState).map (fun q => q.1.pickedVal)
            = some 1 := by decide
        rw [hm1] at hx
        simpa using hx
      have hsome2 : (markRemindSmsBatch 1 none p.2).isSome = true := by
        have hx : ((markRemindSmsBatch 1 none exFreshState).bind
            (fun q => markRemindSmsBatch 1 none q.2)).isSome = true := by decide
        rw [hm1] at hx
        simpa using hx
      cases hm2 : markRemindSmsBatch 1 none p.2 with
      | none => rw [hm2] at hsome2; cases hsome2
      | some q =>
        obtain ⟨-, -, hrs, -⟩ := batch_numbering_increments 1 1 none none exFreshState
        obtain ⟨ha, hb⟩ := hrs "Remind_SMS_Batch" (by decide) (by decide)
          p.1 p.2 q.1 q.2 (by rw [hm1]) (by rw [hp1]) (by rw [hm2])
        have hnb1 : p.1.newBatchVal = 1 := by
          rw [ha]
          decide
        simp [hm2, hb, hnb1]

/-! ## C1 — markBatch picks exactly the first eligible candidates

The remind channels ignore the overwrite flag (see the counterexample);
the amended statement gives each channel its own eligibility predicate:
sms/email use `overwrite OR cell empty`, reminds use `cell empty`. -/

theorem rows_get?_set_self (l : List Row) (m : Nat) (a : Row)
    (h : m < l.length) : (l.set m a).get? m = some a := by
  rw [List.get?_set_of_lt _ _ h, if_pos rfl]

theorem rows_get?_set_ne (l : List Row) (m n : Nat) (a : Row)
    (h : m ≠ n) : (l.set m a).get? n = l.get? n := by
  by_cases hn : n < l.length
  · rw [List.get?_set_of_lt _ _ hn, if_neg h]
  · rw [List.get?_eq_none.2 (le_of_not_lt hn),
      List.get?_eq_none.2 (by simpa using le_of_not_lt hn)]

theorem rowAt_set_ne (l : List Row) (m n : Nat) (a : Row) (h : m ≠ n) :
    rowAt (l.set m a) n = rowAt l n := by
  rw [rowAt, rowAt, List.getD_eq_getElem?_getD, List.getD_eq_getElem?_getD,
    ← List.get?_eq_getElem?, ← List.get?_eq_getElem?, rows_get?_set_ne l m n a h]

/-- The marking loop on duplicate-free in-range candidates: it returns
(never throws), advances the counter by exactly the number of first
eligible candidates within the remaining budget, rewrites exactly those
rows through the write function, and leaves every other row untouched. -/
theorem markLoop_nodup (elig : Row → Bool) (write : Row → Row) (limit : Int) :
    ∀ (cand : List Nat) (data : List Row) (picked : Int),
      cand.Nodup → (∀ i ∈ cand, i < data.length) →
      ∃ out, markLoop elig write limit cand data picked = some out ∧
        out.2 = picked +
          (((cand.filter (fun i => elig (rowAt data i))).take
            (limit - picked).toNat).length : Int) ∧
        ∀ j : Nat,
          (j ∈ (cand.filter (fun i => elig (rowAt data i))).take
              (limit - picked).toNat →
            out.1.get? j = (data.get? j).map write) ∧
          (j ∉ (cand.filter (fun i => elig (rowAt data i))).take
              (limit - picked).toNat →
            out.1.get? j = data.get? j)
  | [], data, picked, _, _ => by
    refine ⟨(data, picked), rfl, by simp, fun j =>
      ⟨fun hj => absurd hj (by simp), fun _ => rfl⟩⟩
  | i :: rest, data, picked, hnd, hval => by
    obtain ⟨hni, hndr⟩ := List.nodup_cons.1 hnd
    by_cases hbr : picked ≥ limit
    · have htn : (limit - picked).toNat = 0 := by omega
      refine ⟨(data, picked), ?_, ?_, ?_⟩
      · unfold markLoop
        rw [if_pos hbr]
      · rw [htn]
        simp
      · intro j
        rw [htn]
        exact ⟨fun hj => absurd hj (by simp), fun _ => rfl⟩
    · have hilen : i < data.length := hval i (by simp)
      obtain ⟨row, hrow⟩ : ∃ row, data.get? i = some row :=
        ⟨data.get ⟨i, hilen⟩, List.get?_eq_get hilen⟩
      have hrowAt : rowAt data i = row := by
        rw [rowAt, List.getD_eq_getElem?_getD, ← List.get?_eq_getElem?, hrow]
        rfl
      unfold markLoop
      rw [if_neg hbr, hrow]
      dsimp only
      by_cases helig : elig row = true
      · rw [if_pos helig]
        have hval1 : ∀ j ∈ rest, j < (data.set i (write row)).length := by
          intro j hj
          rw [List.length_set]
          exact hval j (by simp [hj])
        obtain ⟨out, hml, hcnt, hmem⟩ :=
          markLoop_nodup elig write limit rest (data.set i (write row))
            (picked + 1) hndr hval1
        have hfc : rest.filter (fun j => elig (rowAt (data.set i (write row)) j))
            = rest.filter (fun j => elig (rowAt data j)) := by
          apply List.filter_congr
          intro j hj
          have hji : i ≠ j := fun hh => hni (hh ▸ hj)
          rw [rowAt_set_ne data i j (write row) hji]
        have htn : (limit - picked).toNat = (limit - (picked + 1)).toNat + 1 := by
          omega
        have hfilter : (i :: rest).filter (fun j => elig (rowAt data j))
            = i :: rest.filter (fun j => elig (rowAt data j)) :=
          List.filter_cons_of_pos (by rw [hrowAt]; exact helig)
        rw [hfc] at hcnt
        refine ⟨out, hml, ?_, ?_⟩
        · rw [hfilter, htn, List.take_succ_cons, List.length_cons, hcnt]
          omega
        · intro j
          rw [hfilter, htn, List.take_succ_cons]
          constructor
          · intro hjmem
            rcases List.mem_cons.1 hjmem with hji | hjd
            · subst hji
              have hinotin : j ∉ (rest.filter
                  (fun a => elig (rowAt (data.set j (write row)) a))).take
                    (limit - (picked + 1)).toNat := by
                rw [hfc]
                intro hc
                exact hni (List.mem_of_mem_filter
                  (List.take_subset _ _ hc))
              rw [(hmem j).2 hinotin, rows_get?_set_self data j (write row) hilen,
                hrow]
              rfl
            · have hji : i ≠ j := fun hh =>
                hni (hh ▸ List.mem_of_mem_filter (List.take_subset _ _ hjd))
              rw [(hmem j).1 (by rw [hfc]; exact hjd),
                rows_get?_set_ne data i j (write row) hji]
          · intro hjnot
            have hji : i ≠ j := fun hh => hjnot (hh ▸ List.mem_cons_self _ _)
            have hjd : j ∉ (rest.filter (fun a => elig (rowAt data a))).take
                (limit - (picked + 1)).toNat :=
              fun hc => hjnot (List.mem_cons_of_mem _ hc)
            rw [(hmem j).2 (by rw [hfc]; exact hjd),
              rows_get?_set_ne data i j (write row) hji]
      · rw [if_neg helig]
        obtain ⟨out, hml, hcnt, hmem⟩ :=
          markLoop_nodup elig write limit rest data picked hndr
            (fun j hj => hval j (by simp [hj]))
        have hfilter : (i :: rest).filter (fun j => elig (rowAt data j))
            = rest.filter (fun j => elig (rowAt data j)) :=
          List.filter_cons_of_neg (by rw [hrowAt]; exact helig)
        refine ⟨out, hml, ?_, ?_⟩
        · rw [hfilter]
          exact hcnt
        · intro j
          rw [hfilter]
          exact hmem j

/-- C1 counterexample: on the remind-sms channel the overwrite flag is
ignored.  With overwrite enabled and a single candidate row already
holding a remind batch, the claim's eligibility rule (`overwrite OR
empty`) predicts the row is re-marked; the code picks zero rows and
leaves the store unchanged. -/
theorem overwrite_ignored_on_remind :
    exRemindMarkedState.config.OVERWRITE_BATCH = true ∧
    (rowAt exRemindMarkedState.data 0).get "Remind_SMS_Batch" = CellValue.num 1 ∧
    (markRemindSmsBatch 1 (some [0]) exRemindMarkedState).map
      (fun p => (p.1.pickedVal, p.2.data)) = some (0, exRemindMarkedState.data) := by
  refine ⟨rfl, by decide, by decide⟩

/-- C1 (amended): for every channel, every limit and every duplicate-free
in-range candidate list, markBatch visits the candidates in order and
writes the new batch number into exactly the first eligible rows:
the picked count equals the number of first eligible candidates within
the limit, each of those rows' batch cells holds the new batch number
afterwards, and every other row is completely unchanged; ineligible rows
consume no budget.  Eligibility is `overwrite-enabled OR batch cell
empty` for sms and email, but for remind-sms and remind-email the
overwrite flag is ignored and eligibility is just `batch cell empty`.
(Stated for configurations whose columns resolve to non-empty headers,
so the call creates no column.) -/
theorem markBatch_first_eligible (limit : Int) (s : DMState) :
    (∀ bc cc, findColumn s.headers s.config.BATCH_COL = some bc → bc ≠ "" →
      findColumn s.headers s.config.CONTENT_COL = some cc → cc ≠ "" →
      ∀ cand : List Nat, cand.Nodup → (∀ i ∈ cand, i < s.data.length) →
      s.data.length ≠ 0 →
      ∃ r s1, markSmsBatch limit (some cand) s = some (r, s1) ∧
        r.pickedVal = ((firstEligibleIndices
          (fun i => eligSmsEmail s.config.OVERWRITE_BATCH bc (rowAt s.data i))
          limit cand).length : Int) ∧
        (∀ j ∈ firstEligibleIndices
            (fun i => eligSmsEmail s.config.OVERWRITE_BATCH bc (rowAt s.data i))
            limit cand,
          (rowAt s1.data j).get bc = CellValue.num r.newBatchVal) ∧
        (∀ j : Nat, j ∉ firstEligibleIndices
            (fun i => eligSmsEmail s.config.OVERWRITE_BATCH bc (rowAt s.data i))
            limit cand →
          s1.data.get? j = s.data.get? j)) ∧
    (∀ bc, findColumn s.headers s.config.EMAIL_BATCH_COL = some bc → bc ≠ "" →
      ∀ cand : List Nat, cand.Nodup → (∀ i ∈ cand, i < s.data.length) →
      s.data.length ≠ 0 →
      ∃ r s1, markEmailBatch limit (some cand) s = some (r, s1) ∧
        r.pickedVal = ((firstEligibleIndices
          (fun i => eligSmsEmail s.config.OVERWRITE_BATCH bc (rowAt s.data i))
          limit cand).length : Int) ∧
        (∀ j ∈ firstEligibleIndices
            (fun i => eligSmsEmail s.config.OVERWRITE_BATCH bc (rowAt s.data i))
            limit cand,
          (rowAt s1.data j).get bc = CellValue.num r.newBatchVal) ∧
        (∀ j : Nat, j ∉ firstEligibleIndices
            (fun i => eligSmsEmail s.config.OVERWRITE_BATCH bc (rowAt s.data i))
            limit cand →
          s1.data.get? j = s.data.get? j)) ∧
    (∀ bc, findColumn s.headers s.config.REMIND_SMS_BATCH_COL = some bc →
      bc ≠ "" →
      ∀ cand : List Nat, cand.Nodup → (∀ i ∈ cand, i < s.data.length) →
      s.data.length ≠ 0 →
      ∃ r s1, markRemindSmsBatch limit (some cand) s = some (r, s1) ∧
        r.pickedVal = ((firstEligibleIndices
          (fun i => eligRemind bc (rowAt s.data i)) limit cand).length : Int) ∧
        (∀ j ∈ firstEligibleIndices
            (fun i => eligRemind bc (rowAt s.data i)) limit cand,
          (rowAt s1.data j).get bc = CellValue.num r.newBatchVal) ∧
        (∀ j : Nat, j ∉ firstEligibleIndices
            (fun i => eligRemind bc (rowAt s.data i)) limit cand →
          s1.data.get? j = s.data.get? j)) ∧
    (∀ bc, findColumn s.headers s.config.REMIND_EMAIL_BATCH_COL = some bc →
      bc ≠ "" →
      ∀ cand : List Nat, cand.Nodup → (∀ i ∈ cand, i < s.data.length) →
      s.data.length ≠ 0 →
      ∃ r s1, markRemindEmailBatch limit (some cand) s = some (r, s1) ∧
        r.pickedVal = ((firstEligibleIndices
          (fun i => eligRemind bc (rowAt s.data i)) limit cand).length : Int) ∧
        (∀ j ∈ firstEligibleIndices
            (fun i => eligRemind bc (rowAt s.data i)) limit cand,
          (rowAt s1.data j).get bc = CellValue.num r.newBatchVal) ∧
        (∀ j : Nat, j ∉ firstEligibleIndices
            (fun i => eligRemind bc (rowAt s.data i)) limit cand →
          s1.data.get? j = s.data.get? j)) := by
  refine ⟨?_, ?_, ?_, ?_⟩
  · intro bc cc hbc hbcne hcc hccne cand hnd hvalid hne
    have hens : smsEnsuredState s = s :=
      smsEnsuredState_eq_self s (by rw [hcc]; exact fun hh => Option.noConfusion hh)
        (by rw [hbc]; exact fun hh => Option.noConfusion hh)
    simp only [markSmsBatch]
    rw [if_neg hne, hens, hbc, hcc, jsOrString_some_ne bc _ hbcne,
      jsOrString_some_ne cc _ hccne]
    simp only [Option.getD_some, saveUndoState_data]
    obtain ⟨⟨data1, picked⟩, hml, hcnt, hmem⟩ :=
      markLoop_nodup _ _ limit cand s.data 0 hnd hvalid
    simp only [Int.sub_zero] at hcnt hmem
    rw [hml]
    refine ⟨_, _, rfl, ?_, ?_, ?_⟩
    · show (picked : Int) = _
      simpa [firstEligibleIndices] using hcnt
    · intro j hj
      have hj2 : j ∈ (cand.filter
          (fun i => eligSmsEmail s.config.OVERWRITE_BATCH bc (rowAt s.data i))).take
            limit.toNat := by
        simpa [firstEligibleIndices] using hj
      have hjc : j ∈ cand :=
        List.mem_of_mem_filter (List.take_subset _ _ hj2)
      have hjlen : j < s.data.length := hvalid j hjc
      obtain ⟨rowj, hrowj⟩ : ∃ rowj, s.data.get? j = some rowj :=
        ⟨s.data.get ⟨j, hjlen⟩, List.get?_eq_get hjlen⟩
      have hw := (hmem j).1 hj2
      rw [hrowj] at hw
      show (rowAt _ j).get bc = _
      rw [rowAt, List.getD_eq_getElem?_getD, ← List.get?_eq_getElem?]
      rw [show (if 0 < picked then _ else _ : DMState).data = data1 from
        data_ite _ _ _ data1 rfl rfl]
      rw [hw]
      show ((rowj.set cc _).set bc (CellValue.num (getNextSmsBatch s))).get bc = _
      rw [Row.get_set_self]
      rfl
    · intro j hj
      have hj2 : j ∉ (cand.filter
          (fun i => eligSmsEmail s.config.OVERWRITE_BATCH bc (rowAt s.data i))).take
            limit.toNat := by
        simpa [firstEligibleIndices] using hj
      have hw := (hmem j).2 hj2
      rw [show (if 0 < picked then _ else _ : DMState).data = data1 from
        data_ite _ _ _ data1 rfl rfl]
      exact hw
  · intro bc hbc hbcne cand hnd hvalid hne
    have hens : emailEnsuredState s = s :=
      emailEnsuredState_eq_self s (by rw [hbc]; exact fun hh => Option.noConfusion hh)
    simp only [markEmailBatch]
    rw [if_neg hne, hens, hbc, jsOrString_some_ne bc _ hbcne]
    simp only [Option.getD_some, saveUndoState_data]
    obtain ⟨⟨data1, picked⟩, hml, hcnt, hmem⟩ :=
      markLoop_nodup _ _ limit cand s.data 0 hnd hvalid
    simp only [Int.sub_zero] at hcnt hmem
    rw [hml]
    refine ⟨_, _, rfl, ?_, ?_, ?_⟩
    · show (picked : Int) = _
      simpa [firstEligibleIndices] using hcnt
    · intro j hj
      have hj2 : j ∈ (cand.filter
          (fun i => eligSmsEmail s.config.OVERWRITE_BATCH bc (rowAt s.data i))).take
            limit.toNat := by
        simpa [firstEligibleIndices] using hj
      have hjc : j ∈ cand :=
        List.mem_of_mem_filter (List.take_subset _ _ hj2)
      have hjlen : j < s.data.length := hvalid j hjc
      obtain ⟨rowj, hrowj⟩ : ∃ rowj, s.data.get? j = some rowj :=
        ⟨s.data.get ⟨j, hjlen⟩, List.get?_eq_get hjlen⟩
      have hw := (hmem j).1 hj2
      rw [hrowj] at hw
      show (rowAt _ j).get bc = _
      rw [rowAt, List.getD_eq_getElem?_getD, ← List.get?_eq_getElem?]
      rw [show (if 0 < picked then _ else _ : DMState).data = data1 from
        data_ite _ _ _ data1 rfl rfl]
      rw [hw]
      show (rowj.set bc (CellValue.num (getNextEmailBatch s))).get bc = _
      rw [Row.get_set_self]
      rfl
    · intro j hj
      have hj2 : j ∉ (cand.filter
          (fun i => eligSmsEmail s.config.OVERWRITE_BATCH bc (rowAt s.data i))).take
            limit.toNat := by
        simpa [firstEligibleIndices] using hj
      have hw := (hmem j).2 hj2
      rw [show (if 0 < picked then _ else _ : DMState).data = data1 from
        data_ite _ _ _ data1 rfl rfl]
      exact hw
  · intro bc hbc hbcne cand hnd hvalid hne
    have hens : remindSmsEnsuredState s = s :=
      remindSmsEnsuredState_eq_self s (by rw [hbc]; exact fun hh => Option.noConfusion hh)
    simp only [markRemindSmsBatch]
    rw [if_neg hne, hens, hbc, jsOrString_some_ne bc _ hbcne]
    simp only [Option.getD_some, saveUndoState_data]
    obtain ⟨⟨data1, picked⟩, hml, hcnt, hmem⟩ :=
      markLoop_nodup _ _ limit cand s.data 0 hnd hvalid
    simp only [Int.sub_zero] at hcnt hmem
    rw [hml]
    refine ⟨_, _, rfl, ?_, ?_, ?_⟩
    · show (picked : Int) = _
      simpa [firstEligibleIndices] using hcnt
    · intro j hj
      have hj2 : j ∈ (cand.filter
          (fun i => eligRemind bc (rowAt s.data i))).take limit.toNat := by
        simpa [firstEligibleIndices] using hj
      have hjc : j ∈ cand :=
        List.mem_of_mem_filter (List.take_subset _ _ hj2)
      have hjlen : j < s.data.length := hvalid j hjc
      obtain ⟨rowj, hrowj⟩ : ∃ rowj, s.data.get? j = some rowj :=
        ⟨s.data.get ⟨j, hjlen⟩, List.get?_eq_get hjlen⟩
      have hw := (hmem j).1 hj2
      rw [hrowj] at hw
      show (rowAt _ j).get bc = _
      rw [rowAt, List.getD_eq_getElem?_getD, ← List.get?_eq_getElem?]
      rw [show ({ saveUndoState s with data := data1 } : DMState).data = data1 from rfl]
      rw [hw]
      show (rowj.set bc (CellValue.num (columnMaxInt bc s.data + 1))).get bc = _
      rw [Row.get_set_self]
      rfl
    · intro j hj
      have hj2 : j ∉ (cand.filter
          (fun i => eligRemind bc (rowAt s.data i))).take limit.toNat := by
        simpa [firstEligibleIndices] using hj
      exact (hmem j).2 hj2
  · intro bc hbc hbcne cand hnd hvalid hne
    have hens : remindEmailEnsuredState s = s :=
      remindEmailEnsuredState_eq_self s (by rw [hbc]; exact fun hh => Option.noConfusion hh)
    simp only [markRemindEmailBatch]
    rw [if_neg hne, hens, hbc, jsOrString_some_ne bc _ hbcne]
    simp only [Option.getD_some, saveUndoState_data]
    obtain ⟨⟨data1, picked⟩, hml, hcnt, hmem⟩ :=
      markLoop_nodup _ _ limit cand s.data 0 hnd hvalid
    simp only [Int.sub_zero] at hcnt hmem
    rw [hml]
    refine ⟨_, _, rfl, ?_, ?_, ?_⟩
    · show (picked : Int) = _
      simpa [firstEligibleIndices] using hcnt
    · intro j hj
      have hj2 : j ∈ (cand.filter
          (fun i => eligRemind bc (rowAt s.data i))).take limit.toNat := by
        simpa [firstEligibleIndices] using hj
      have hjc : j ∈ cand :=
        List.mem_of_mem_filter (List.take_subset _ _ hj2)
      have hjlen : j < s.data.length := hvalid j hjc
      obtain ⟨rowj, hrowj⟩ : ∃ rowj, s.data.get? j = some rowj :=
        ⟨s.data.get ⟨j, hjlen⟩, List.get?_eq_get hjlen⟩
      have hw := (hmem j).1 hj2
      rw [hrowj] at hw
      show (rowAt _ j).get bc = _
      rw [rowAt, List.getD_eq_getElem?_getD, ← List.get?_eq_getElem?]
      rw [show ({ saveUndoState s with data := data1 } : DMState).data = data1 from rfl]
      rw [hw]
      show (rowj.set bc (CellValue.num (columnMaxInt bc s.data + 1))).get bc = _
      rw [Row.get_set_self]
      rfl
    · intro j hj
      have hj2 : j ∉ (cand.filter
          (fun i => eligRemind bc (rowAt s.data i))).take limit.toNat := by
        simpa [firstEligibleIndices] using hj
      exact (hmem j).2 hj2

/-- C1 witness: marking sms with limit 1 over candidates [0, 2] on the
fresh three-row store picks exactly the first eligible candidate, and the
remind-sms channel does the same under its own eligibility rule. -/
theorem markBatch_first_eligible_witness :
    ((markSmsBatch 1 (some [0, 2]) exFreshState).map (fun p => p.1.pickedVal) =
      some ((firstEligibleIndices
        (fun i => eligSmsEmail exFreshState.config.OVERWRITE_BATCH "SMS_Batch"
          (rowAt exFreshState.data i)) 1 [0, 2]).length : Int)) ∧
    ((markRemindSmsBatch 1 (some [0, 2]) exFreshState).map (fun p => p.1.pickedVal) =
      some ((firstEligibleIndices
        (fun i => eligRemind "Remind_SMS_Batch" (rowAt exFreshState.data i))
        1 [0, 2]).length : Int)) := by
  constructor
  · obtain ⟨r, s1, hm, hcount, -, -⟩ := (markBatch_first_eligible 1 exFreshState).1
      "SMS_Batch" "SMS_Content" (by decide) (by decide) (by decide) (by decide)
      [0, 2] (by decide) (by decide) (by decide)
    rw [hm, Option.map_some', hcount]
  · obtain ⟨-, -, hrs, -⟩ := markBatch_first_eligible 1 exFreshState
    obtain ⟨r, s1, hm, hcount, -, -⟩ := hrs "Remind_SMS_Batch" (by decide)
      (by decide) [0, 2] (by decide) (by decide) (by decide)
    rw [hm, Option.map_some', hcount]

end FwTools
